import Mathlib

/-!
Verification development for the `sql_fingerprint` repository's templated-SQL
grammar extension and round-trip verifier (`src/sql_pattern/pattern_verify.py`).

The source extends sqlglot's MySQL dialect (`class DTMySQL`) with four
template constructs: three group functions `OPTIONAL(...)`, `REQUIRED(...)`,
`LOOP(...)` (registered in `NO_PAREN_FUNCTION_PARSERS`, parsed by
`_parse_opt_func`) and a named block `OPT_BLOCK name [ ... ]` (parsed by
`_parse_opt_block`).  A clause enum `OptBlockInClause` records, as mutable
parser state `opt_block_in_clause`, the SQL clause in which the most recent
`OPT_BLOCK` opener occurred (determined in the source by inspecting the
interpreter call stack for `_parse_projections` / `_parse_group` /
`_parse_order`); group bodies are parsed with the clause-appropriate
sub-grammar (`_parse_csv(self._parse_ordered)` for ORDER BY, generic
expressions otherwise).  Generation is via the transform functions
`opt_block_sql`, `required_sql`, `optional_sql`, `loop_sql`.  Around this sit
`clean_sql_text` (escape/brace normalization), `parse` / `generate` /
`verify_sql`, and the `__main__` batch-aggregation loop.

This file embeds a faithful fragment of that system: the base SQL grammar is
restricted to identifiers, `l = r` equality, ordered expressions with
`ASC`/`DESC`, comma-separated lists, and `SELECT ... FROM ... WHERE ...
GROUP BY ... ORDER BY ...` statements; the macro constructs, the clause
state machine, the generator transforms, the cleaning step and the batch
loop are translated from the source.  Base-grammar pieces that live in the
sqlglot library rather than in the repository (tokenization, `_parse_csv`,
`_parse_ordered`, `validate_expression` of required `arg_types`) are
modelled as the specification describes them.
-/

deriving instance DecidableEq for Except

namespace SqlPattern

/-- Tokens of the embedded SQL fragment.  The source's tokenizer is
sqlglot's MySQL tokenizer, unchanged by `DTMySQL.Tokenizer`; keywords are
case-insensitive, identifiers are word-character runs, and the punctuation
used by the macro grammar is `( ) [ ] , =`. -/
inductive Tok where
  | select | fromKw | whereKw | groupKw | byKw | orderKw
  | asc | desc
  | optionalK | requiredK | loopK | optBlockK
  | lparen | rparen | lbracket | rbracket | comma | eqT
  | ident (s : String)
deriving DecidableEq, Repr

/-- Word characters: letters, digits, underscore (identifier characters). -/
def isWordChar (c : Char) : Bool := c.isAlpha || c.isDigit || c = '_'

/-- Whitespace skipped by the tokenizer. -/
def isSpaceChar (c : Char) : Bool := c = ' ' || c = '\n' || c = '\t' || c = '\r'

/-- Single-character punctuation tokens. -/
def puncTok (c : Char) : Option Tok :=
  if c = '(' then some .lparen
  else if c = ')' then some .rparen
  else if c = '[' then some .lbracket
  else if c = ']' then some .rbracket
  else if c = ',' then some .comma
  else if c = '=' then some .eqT
  else none

/-- Keyword lookup on the upper-cased word (sqlglot keywords are
case-insensitive; the macro keywords are dispatched by upper-cased token
text in `NO_PAREN_FUNCTION_PARSERS`, lines 133-139). -/
def keywordTok (u : String) : Option Tok :=
  if u = "SELECT" then some .select
  else if u = "FROM" then some .fromKw
  else if u = "WHERE" then some .whereKw
  else if u = "GROUP" then some .groupKw
  else if u = "BY" then some .byKw
  else if u = "ORDER" then some .orderKw
  else if u = "ASC" then some .asc
  else if u = "DESC" then some .desc
  else if u = "OPTIONAL" then some .optionalK
  else if u = "REQUIRED" then some .requiredK
  else if u = "LOOP" then some .loopK
  else if u = "OPT_BLOCK" then some .optBlockK
  else none

/-- Classify a word-character run as a keyword or an identifier. -/
def classifyWord (w : List Char) : Tok :=
  match keywordTok (String.mk (w.map Char.toUpper)) with
  | some t => t
  | none => .ident (String.mk w)

/-- Fuelled tokenizer loop.  Every step consumes at least one character,
so fuel equal to the input length always suffices (see
`tokenizeGo_fuel_irrel`); the fuel only serves to make the recursion
structural. -/
def tokenizeGo : Nat → List Char → Except String (List Tok)
  | _, [] => .ok []
  | 0, _ :: _ => .error "tokenizer fuel exhausted"
  | fuel + 1, c :: cs =>
    if isSpaceChar c then tokenizeGo fuel cs
    else
      match puncTok c with
      | some t =>
        match tokenizeGo fuel cs with
        | .ok ts => .ok (t :: ts)
        | .error e => .error e
      | none =>
        if isWordChar c then
          match tokenizeGo fuel (cs.dropWhile isWordChar) with
          | .ok ts => .ok (classifyWord (c :: cs.takeWhile isWordChar) :: ts)
          | .error e => .error e
        else .error "unsupported character"

/-- Tokenizer over the character list of the input. -/
def tokenizeL (l : List Char) : Except String (List Tok) :=
  tokenizeGo l.length l

/-- The clause-context enum `OptBlockInClause` (source lines 30-42). -/
inductive OptBlockInClause where
  | expression | projection | groupBy | orderBy
deriving DecidableEq, Repr

/-- The three group-function kinds, i.e. the keys of
`opt_func_to_class_dict` (source lines 75-79). -/
inductive GroupKind where
  | optionalG | requiredG | loopG
deriving DecidableEq, Repr

mutual
/-- Expression AST of the fragment.  `column`, `eq` and `ordered` model
sqlglot's `Column`, `EQ` and `Ordered` nodes (`ordered` carries sqlglot's
`desc` argument: `none` when no direction was written, `some true` for
`DESC`, `some false` for `ASC`); the remaining constructors model the
source's node classes `OptionalFunc`, `RequiredFunc`, `LoopFunc` (each with
the single required variadic argument `this`, lines 56-68) and `OptBlock`
(required `this` = name, optional `blocks`, lines 71-72). -/
inductive Expr where
  | column (name : String)
  | eq (l r : Expr)
  | ordered (e : Expr) (descFlag : Option Bool)
  | optionalFunc (args : ExprList)
  | requiredFunc (args : ExprList)
  | loopFunc (args : ExprList)
  | optBlock (name : String) (blocks : ExprList)
deriving DecidableEq, Repr

/-- Lists of expressions (mutually inductive with `Expr`). -/
inductive ExprList where
  | nil
  | cons (hd : Expr) (tl : ExprList)
deriving DecidableEq, Repr
end

/-- `opt_func_to_class_dict` (source lines 75-79): which AST node a group
keyword builds. -/
def GroupKind.build : GroupKind → ExprList → Expr
  | .optionalG, args => .optionalFunc args
  | .requiredG, args => .requiredFunc args
  | .loopG, args => .loopFunc args

/-- Statements of the fragment: a `SELECT` with optional `FROM`, `WHERE`,
`GROUP BY`, `ORDER BY` clauses, or a single bare expression (sqlglot parses
non-statement input as an expression, which is how `REQUIRED(a, b)` alone
is accepted by `parse_one`). -/
inductive Stmt where
  | selectS (projections : ExprList) (fromTable : Option String)
      (whereExpr : Option Expr) (groupByE : Option ExprList)
      (orderByE : Option ExprList)
  | exprStmt (e : Expr)
deriving DecidableEq, Repr

/-- Result of a sub-parser: the parsed value, remaining tokens, and the
`opt_block_in_clause` mutable state after parsing (source line 143 states
it is parser-instance state, initialised to `EXPRESSION`). -/
abbrev PRes (α : Type) := Except String (α × List Tok × OptBlockInClause)

/-- sqlglot's `self._match(token_type)`: consume the next token when it is
the expected one, reporting whether it was consumed. -/
def matchTok (t : Tok) : List Tok → Option (List Tok)
  | x :: xs => if x = t then some xs else none
  | [] => none

/-- Clause context seen by a nested `OPT_BLOCK` while a group body is being
parsed.  The source determines the context by walking the call stack for
the innermost of `_parse_projections` / `_parse_group` / `_parse_order`
(lines 178-184): a group body in `PROJECTION` state is parsed by calling
`_parse_projections` (line 156), which therefore becomes the innermost
stack match for blocks nested in that body; the other three body parsers
(`_parse_csv(_parse_assignment)`, `_parse_csv(_parse_ordered)`,
`_parse_expressions`) are not keys of `parse_caller_to_clause_dict`, so the
enclosing match is unchanged. -/
def groupBodyEnc (st enc : OptBlockInClause) : OptBlockInClause :=
  if st = .projection then .projection else enc

mutual
/-- An atomic expression: an identifier column, or one of the macro
constructs dispatched by keyword exactly as `NO_PAREN_FUNCTION_PARSERS`
does (source lines 133-139). -/
def parseAtom : Nat → List Tok → OptBlockInClause → OptBlockInClause → PRes Expr
  | 0, _, _, _ => .error "fuel exhausted"
  | _ + 1, Tok.ident s :: rest, st, _ => .ok (.column s, rest, st)
  | f + 1, Tok.optionalK :: rest, st, enc => parseOptFunc f .optionalG rest st enc
  | f + 1, Tok.requiredK :: rest, st, enc => parseOptFunc f .requiredG rest st enc
  | f + 1, Tok.loopK :: rest, st, enc => parseOptFunc f .loopG rest st enc
  | f + 1, Tok.optBlockK :: rest, st, enc => parseOptBlock f rest st enc
  | _ + 1, _, _, _ => .error "expected expression"

/-- A generic expression: an atom, optionally extended to a binary `=`
(the fragment of sqlglot's `_parse_assignment` chain).  The implicit-alias
production that `_parse_expression` adds on top of `_parse_assignment` is
modelled separately (`parseExprAliasA` below); generated texts never place
an alias-capable token after an expression, so the omission is invisible
to the round-trip development built on this parser. -/
def parseExpr : Nat → List Tok → OptBlockInClause → OptBlockInClause → PRes Expr
  | 0, _, _, _ => .error "fuel exhausted"
  | f + 1, toks, st, enc =>
    match parseAtom f toks st enc with
    | .error e => .error e
    | .ok (a, rest, st1) =>
      match matchTok Tok.eqT rest with
      | some rest2 =>
        match parseAtom f rest2 st1 enc with
        | .error e => .error e
        | .ok (b, rest3, st2) => .ok (.eq a b, rest3, st2)
      | none => .ok (a, rest, st1)

/-- sqlglot's `_parse_ordered`: an expression with an optional `ASC`/`DESC`
direction, always wrapped in an `Ordered` node (`desc` argument `none` when
no direction was written). -/
def parseOrdered : Nat → List Tok → OptBlockInClause → OptBlockInClause → PRes Expr
  | 0, _, _, _ => .error "fuel exhausted"
  | f + 1, toks, st, enc =>
    match parseExpr f toks st enc with
    | .error e => .error e
    | .ok (e, rest, st1) =>
      match matchTok Tok.asc rest with
      | some rest2 => .ok (.ordered e (some false), rest2, st1)
      | none =>
        match matchTok Tok.desc rest with
        | some rest2 => .ok (.ordered e (some true), rest2, st1)
        | none => .ok (.ordered e none, rest, st1)

/-- sqlglot's `_parse_csv` over generic expressions
(`_parse_expressions`): one or more comma-separated expressions, without
the implicit-alias production of `_parse_expression` (modelled separately
in `parseCsvAliasA` below, which claim C6 uses). -/
def parseCsvExpr : Nat → List Tok → OptBlockInClause → OptBlockInClause → PRes ExprList
  | 0, _, _, _ => .error "fuel exhausted"
  | f + 1, toks, st, enc =>
    match parseExpr f toks st enc with
    | .error e => .error e
    | .ok (e, rest, st1) =>
      match matchTok Tok.comma rest with
      | some rest2 =>
        match parseCsvExpr f rest2 st1 enc with
        | .error err => .error err
        | .ok (es, rest3, st2) => .ok (.cons e es, rest3, st2)
      | none => .ok (.cons e .nil, rest, st1)

/-- `_parse_csv(self._parse_ordered)`: one or more comma-separated ordered
expressions (used for ORDER BY clauses and ORDER BY-context group bodies,
source line 160). -/
def parseCsvOrdered : Nat → List Tok → OptBlockInClause → OptBlockInClause → PRes ExprList
  | 0, _, _, _ => .error "fuel exhausted"
  | f + 1, toks, st, enc =>
    match parseOrdered f toks st enc with
    | .error e => .error e
    | .ok (e, rest, st1) =>
      match matchTok Tok.comma rest with
      | some rest2 =>
        match parseCsvOrdered f rest2 st1 enc with
        | .error err => .error err
        | .ok (es, rest3, st2) => .ok (.cons e es, rest3, st2)
      | none => .ok (.cons e .nil, rest, st1)

/-- `DTMySQL.Parser._parse_opt_func` (source lines 145-172), entered after
the group keyword has been consumed: expect `(`; an immediately following
`)` leaves the argument list empty; otherwise parse the body with the
sub-grammar selected by the current `opt_block_in_clause` state (in this
alias-free parser `PROJECTION`, `GROUP_BY` and `EXPRESSION` bodies all
parse as generic comma-separated expressions, `ORDER_BY` bodies as ordered
expressions; `parseOptFuncA` below carries the full clause dispatch with
the alias production) and expect `)`.  Construction via `self.expression` then runs
sqlglot's `validate_expression`: the `this` argument of the group node
classes is required (`arg_types = {"this": True}`, lines 56-68) and an
empty list counts as missing, so an empty body is a parse error. -/
def parseOptFunc : Nat → GroupKind → List Tok → OptBlockInClause → OptBlockInClause → PRes Expr
  | 0, _, _, _, _ => .error "fuel exhausted"
  | f + 1, kind, toks, st, enc =>
    match matchTok Tok.lparen toks with
    | some rest =>
      let argsRes : PRes ExprList :=
        match matchTok Tok.rparen rest with
        | some rest2 => .ok (.nil, rest2, st)
        | none =>
          let body : PRes ExprList :=
            if st = .orderBy then parseCsvOrdered f rest st (groupBodyEnc st enc)
            else parseCsvExpr f rest st (groupBodyEnc st enc)
          match body with
          | .error e => .error e
          | .ok (args, rest2, st1) =>
            match matchTok Tok.rparen rest2 with
            | some rest3 => .ok (args, rest3, st1)
            | none => .error "Expected rparen after group"
      match argsRes with
      | .error e => .error e
      | .ok (args, rest2, st1) =>
        match args with
        | .nil => .error "Required keyword this missing"
        | _ => .ok (kind.build args, rest2, st1)
    | none => .error "Expected lparen after group keyword"

/-- `DTMySQL.Parser._parse_opt_block` (source lines 174-199), entered after
the `OPT_BLOCK` keyword has been consumed: parse the block name, set the
`opt_block_in_clause` state to the clause of the nearest enclosing clause
parser on the call stack (modelled by the explicit `enc` argument), expect
`[`, parse zero or more comma-separated generic expressions
(`self._parse_expressions()`, line 193), expect `]`.  The `blocks` argument
is optional (`arg_types` line 72), so an empty block body is accepted; no
duplicate-name check is performed. -/
def parseOptBlock : Nat → List Tok → OptBlockInClause → OptBlockInClause → PRes Expr
  | 0, _, _, _ => .error "fuel exhausted"
  | f + 1, toks, _, enc =>
    match toks with
    | Tok.ident n :: rest =>
      match matchTok Tok.lbracket rest with
      | some rest2 =>
        match matchTok Tok.rbracket rest2 with
        | some rest3 => .ok (.optBlock n .nil, rest3, enc)
        | none =>
          match parseCsvExpr f rest2 enc enc with
          | .error e => .error e
          | .ok (blocks, rest3, st1) =>
            match matchTok Tok.rbracket rest3 with
            | some rest4 => .ok (.optBlock n blocks, rest4, st1)
            | none => .error "Expected rbracket after OPT_BLOCK"
      | none => .error "Expected lbracket after OPT_BLOCK"
    | _ => .error "Expected block name after OPT_BLOCK"
end

/-- Optional `FROM <table>` clause (single-table fragment of sqlglot's
`_parse_from`). -/
def parseFromOpt (toks : List Tok) : Except String (Option String × List Tok) :=
  match matchTok Tok.fromKw toks with
  | some rest =>
    match rest with
    | Tok.ident n :: rest2 => .ok (some n, rest2)
    | _ => .error "Expected table name after FROM"
  | none => .ok (none, toks)

/-- Optional `WHERE` clause.  An `OPT_BLOCK` opener inside a WHERE
condition finds none of the clause functions of
`parse_caller_to_clause_dict` on the call stack, so its context is the
default `EXPRESSION`. -/
def parseWhereOpt (f : Nat) (toks : List Tok) (st : OptBlockInClause) : PRes (Option Expr) :=
  match matchTok Tok.whereKw toks with
  | some rest =>
    match parseExpr f rest st .expression with
    | .error e => .error e
    | .ok (e, rest2, st1) => .ok (some e, rest2, st1)
  | none => .ok (none, toks, st)

/-- Optional `GROUP BY` clause; `_parse_group` is on the stack while its
items parse, so nested block openers see context `GROUP_BY`. -/
def parseGroupOpt (f : Nat) (toks : List Tok) (st : OptBlockInClause) : PRes (Option ExprList) :=
  match matchTok Tok.groupKw toks with
  | some rest =>
    match matchTok Tok.byKw rest with
    | some rest2 =>
      match parseCsvExpr f rest2 st .groupBy with
      | .error e => .error e
      | .ok (es, rest3, st1) => .ok (some es, rest3, st1)
    | none => .error "Expected BY after GROUP"
  | none => .ok (none, toks, st)

/-- Optional `ORDER BY` clause; items parse as ordered expressions and
`_parse_order` is on the stack, so nested block openers see `ORDER_BY`. -/
def parseOrderOpt (f : Nat) (toks : List Tok) (st : OptBlockInClause) : PRes (Option ExprList) :=
  match matchTok Tok.orderKw toks with
  | some rest =>
    match matchTok Tok.byKw rest with
    | some rest2 =>
      match parseCsvOrdered f rest2 st .orderBy with
      | .error e => .error e
      | .ok (es, rest3, st1) => .ok (some es, rest3, st1)
    | none => .error "Expected BY after ORDER"
  | none => .ok (none, toks, st)

/-- Parse one statement: a `SELECT` with its optional clauses (the
projection list is parsed under `_parse_projections`, context
`PROJECTION`), or a single bare expression.  The `opt_block_in_clause`
state starts at `EXPRESSION` (source line 143) and threads through the
clauses in order. -/
def parseStatement (f : Nat) (toks : List Tok) : Except String (Stmt × List Tok × OptBlockInClause) :=
  match matchTok Tok.select toks with
  | some rest =>
    match parseCsvExpr f rest .expression .projection with
    | .error e => .error e
    | .ok (projs, r1, st1) =>
      match parseFromOpt r1 with
      | .error e => .error e
      | .ok (tbl, r2) =>
        match parseWhereOpt f r2 st1 with
        | .error e => .error e
        | .ok (w, r3, st2) =>
          match parseGroupOpt f r3 st2 with
          | .error e => .error e
          | .ok (g, r4, st3) =>
            match parseOrderOpt f r4 st3 with
            | .error e => .error e
            | .ok (o, r5, st4) => .ok (.selectS projs tbl w g o, r5, st4)
  | none =>
    match parseExpr f toks .expression .expression with
    | .error e => .error e
    | .ok (e, rest, st1) => .ok (.exprStmt e, rest, st1)

/-- `parse` (source lines 214-217): `parse_one(sql, read=dialect)` with a
fresh parser, requiring the whole input to be consumed.  The subsequent
`stmt.sql()` call on line 216 generates with the default dialect and
discards the result; on this fragment every node generates successfully
(sqlglot falls back to `function_fallback_sql` for `Func` subclasses), so
it is modelled as a no-op.  The fuel `4 * |toks| + 8` bounds the recursion
depth; each grammar nesting level consumes at least one token and at most
four parser frames, so the bound is never the reason a parse fails. -/
def parse (s : String) : Except String Stmt :=
  match tokenizeL s.data with
  | .error e => .error e
  | .ok toks =>
    match parseStatement (4 * toks.length + 8) toks with
    | .error e => .error e
    | .ok (stmt, [], _) => .ok stmt
    | .ok _ => .error "Unexpected trailing tokens"

mutual
/-- Character-level generation of an expression under the `DTMySQL`
generator: `required_sql` / `optional_sql` / `loop_sql` render
`<KW> (<args comma-joined>)` — keyword, a space, then the parenthesised
list (source lines 101-119) — and `opt_block_sql` renders
`OPT_BLOCK <name>[<blocks comma-joined>]` — no space before the bracket
(line 97).  Base nodes render with sqlglot's stock rules: column name,
`l = r`, and `Ordered` with ` DESC` / ` ASC` exactly when the `desc`
argument is `True` / `False`. -/
def genL : Expr → List Char
  | .column n => n.data
  | .eq a b => genL a ++ ' ' :: '=' :: ' ' :: genL b
  | .ordered e d =>
    genL e ++ (match d with
      | none => []
      | some true => " DESC".data
      | some false => " ASC".data)
  | .optionalFunc args => "OPTIONAL (".data ++ (genLList args ++ [')'])
  | .requiredFunc args => "REQUIRED (".data ++ (genLList args ++ [')'])
  | .loopFunc args => "LOOP (".data ++ (genLList args ++ [')'])
  | .optBlock n bs => "OPT_BLOCK ".data ++ (n.data ++ '[' :: (genLList bs ++ [']']))

/-- `", ".join` of the rendered items (source lines 96-97, 103-104). -/
def genLList : ExprList → List Char
  | .nil => []
  | .cons e .nil => genL e
  | .cons e (.cons e2 tl) => genL e ++ ',' :: ' ' :: genLList (.cons e2 tl)
end

mutual
/-- Token-level image of `genL`. -/
def genToksE : Expr → List Tok
  | .column n => [.ident n]
  | .eq a b => genToksE a ++ Tok.eqT :: genToksE b
  | .ordered e d =>
    genToksE e ++ (match d with
      | none => []
      | some true => [Tok.desc]
      | some false => [Tok.asc])
  | .optionalFunc args => Tok.optionalK :: Tok.lparen :: (genToksList args ++ [Tok.rparen])
  | .requiredFunc args => Tok.requiredK :: Tok.lparen :: (genToksList args ++ [Tok.rparen])
  | .loopFunc args => Tok.loopK :: Tok.lparen :: (genToksList args ++ [Tok.rparen])
  | .optBlock n bs =>
    Tok.optBlockK :: Tok.ident n :: Tok.lbracket :: (genToksList bs ++ [Tok.rbracket])

/-- Token-level image of `genLList`. -/
def genToksList : ExprList → List Tok
  | .nil => []
  | .cons e .nil => genToksE e
  | .cons e (.cons e2 tl) => genToksE e ++ Tok.comma :: genToksList (.cons e2 tl)
end

/-- Rendering of an optional `FROM` clause. -/
def fromChunkL : Option String → List Char
  | none => []
  | some n => " FROM ".data ++ n.data

/-- Rendering of an optional `WHERE` clause. -/
def whereChunkL : Option Expr → List Char
  | none => []
  | some e => " WHERE ".data ++ genL e

/-- Rendering of an optional `GROUP BY` clause. -/
def groupChunkL : Option ExprList → List Char
  | none => []
  | some es => " GROUP BY ".data ++ genLList es

/-- Rendering of an optional `ORDER BY` clause. -/
def orderChunkL : Option ExprList → List Char
  | none => []
  | some es => " ORDER BY ".data ++ genLList es

/-- Character-level generation of a statement (sqlglot's canonical clause
layout, restricted to the fragment). -/
def genLStmt : Stmt → List Char
  | .exprStmt e => genL e
  | .selectS projs tbl w g o =>
    "SELECT ".data ++ genLList projs
    ++ (fromChunkL tbl ++ (whereChunkL w ++ (groupChunkL g ++ orderChunkL o)))

/-- Token-level image of `fromChunkL`. -/
def fromChunkToks : Option String → List Tok
  | none => []
  | some n => [Tok.fromKw, Tok.ident n]

/-- Token-level image of `whereChunkL`. -/
def whereChunkToks : Option Expr → List Tok
  | none => []
  | some e => Tok.whereKw :: genToksE e

/-- Token-level image of `groupChunkL`. -/
def groupChunkToks : Option ExprList → List Tok
  | none => []
  | some es => Tok.groupKw :: Tok.byKw :: genToksList es

/-- Token-level image of `orderChunkL`. -/
def orderChunkToks : Option ExprList → List Tok
  | none => []
  | some es => Tok.orderKw :: Tok.byKw :: genToksList es

/-- Token-level image of `genLStmt`. -/
def genToksStmt : Stmt → List Tok
  | .exprStmt e => genToksE e
  | .selectS projs tbl w g o =>
    Tok.select :: genToksList projs
    ++ (fromChunkToks tbl ++ (whereChunkToks w ++ (groupChunkToks g ++ orderChunkToks o)))

/-- `generate` (source lines 220-222): `stmt.sql(dialect=dialect)`. -/
def generate (stmt : Stmt) : String := String.mk (genLStmt stmt)

/-- String-level rendering of one expression (`self.sql(...)` under the
`DTMySQL` generator). -/
def Expr.sql (e : Expr) : String := String.mk (genL e)

/-! ### The implicit-alias production of sqlglot expression parsing

In sqlglot, `_parse_expression` is `_parse_alias(_parse_assignment())`:
after an assignment it accepts a following identifier-like token
(`ALIAS_TOKENS = ID_VAR_TOKENS`, a set that contains the `ASC` and `DESC`
token types) as an implicit column alias, producing an `Alias` node.  The
parsers above model the group-body parsers without this production, which
none of the round-tripped generated texts exercise; the definitions below
extend the embedding with it, so that the clause-context behaviour of
group bodies can be stated faithfully: the `PROJECTION` and `EXPRESSION`
bodies (`_parse_projections` / `_parse_expressions`, source lines 156 and
162) and every `OPT_BLOCK` body (`_parse_expressions`, line 193) parse
with the alias production, while the `GROUP_BY` body
(`_parse_csv(_parse_assignment)`, line 158) and the `ORDER_BY` body
(`_parse_csv(_parse_ordered)`, line 160) do not.  The fragment's
tokenizer canonicalises keyword case, so the alias text of a directional
word is recorded in upper case; the explicit `AS` form lies outside the
fragment. -/

mutual
/-- Expression AST extended with sqlglot's `Alias` node, the result of the
implicit-alias production of `_parse_alias`. -/
inductive ExprA where
  | column (name : String)
  | eq (l r : ExprA)
  | ordered (e : ExprA) (descFlag : Option Bool)
  | aliasA (e : ExprA) (aliasName : String)
  | optionalFunc (args : ExprListA)
  | requiredFunc (args : ExprListA)
  | loopFunc (args : ExprListA)
  | optBlock (name : String) (blocks : ExprListA)
deriving DecidableEq, Repr

/-- Lists of alias-extended expressions. -/
inductive ExprListA where
  | nil
  | cons (hd : ExprA) (tl : ExprListA)
deriving DecidableEq, Repr
end

/-- Node built by `opt_func_to_class_dict` over the alias-extended AST. -/
def GroupKind.buildA : GroupKind → ExprListA → ExprA
  | .optionalG, args => .optionalFunc args
  | .requiredG, args => .requiredFunc args
  | .loopG, args => .loopFunc args

/-- Statements over the alias-extended AST. -/
inductive StmtA where
  | selectS (projections : ExprListA) (fromTable : Option String)
      (whereExpr : Option ExprA) (groupByE : Option ExprListA)
      (orderByE : Option ExprListA)
  | exprStmt (e : ExprA)
deriving DecidableEq, Repr

/-- Tokens usable as an implicit alias (`ID_VAR_TOKENS` restricted to the
fragment's token set): plain identifiers and the `ASC`/`DESC` keyword
tokens, whose alias text is the keyword itself. -/
def aliasTok : Tok → Option String
  | .ident s => some s
  | .asc => some "ASC"
  | .desc => some "DESC"
  | _ => none

mutual
/-- Atomic expression over the alias-extended AST, with the keyword
dispatch of `NO_PAREN_FUNCTION_PARSERS` (source lines 133-139). -/
def parseAtomA : Nat → List Tok → OptBlockInClause → OptBlockInClause → PRes ExprA
  | 0, _, _, _ => .error "fuel exhausted"
  | _ + 1, Tok.ident s :: rest, st, _ => .ok (.column s, rest, st)
  | f + 1, Tok.optionalK :: rest, st, enc => parseOptFuncA f .optionalG rest st enc
  | f + 1, Tok.requiredK :: rest, st, enc => parseOptFuncA f .requiredG rest st enc
  | f + 1, Tok.loopK :: rest, st, enc => parseOptFuncA f .loopG rest st enc
  | f + 1, Tok.optBlockK :: rest, st, enc => parseOptBlockA f rest st enc
  | _ + 1, _, _, _ => .error "expected expression"

/-- Fragment of sqlglot's `_parse_assignment` chain over the
alias-extended AST: an atom, optionally extended to a binary `=`; the
alias production is not part of `_parse_assignment`. -/
def parseAssignA : Nat → List Tok → OptBlockInClause → OptBlockInClause → PRes ExprA
  | 0, _, _, _ => .error "fuel exhausted"
  | f + 1, toks, st, enc =>
    match parseAtomA f toks st enc with
    | .error e => .error e
    | .ok (a, rest, st1) =>
      match matchTok Tok.eqT rest with
      | some rest2 =>
        match parseAtomA f rest2 st1 enc with
        | .error e => .error e
        | .ok (b, rest3, st2) => .ok (.eq a b, rest3, st2)
      | none => .ok (a, rest, st1)

/-- sqlglot's `_parse_expression`, i.e.
`_parse_alias(_parse_assignment())`: an assignment, optionally followed by
an implicit alias token. -/
def parseExprAliasA : Nat → List Tok → OptBlockInClause → OptBlockInClause → PRes ExprA
  | 0, _, _, _ => .error "fuel exhausted"
  | f + 1, toks, st, enc =>
    match parseAssignA f toks st enc with
    | .error e => .error e
    | .ok (e, rest, st1) =>
      match rest with
      | t :: rest2 =>
        match aliasTok t with
        | some a => .ok (.aliasA e a, rest2, st1)
        | none => .ok (e, rest, st1)
      | [] => .ok (e, rest, st1)

/-- sqlglot's `_parse_ordered` over the alias-extended AST: an assignment
(no alias production) with an optional `ASC`/`DESC` direction, always
wrapped in an `Ordered` node. -/
def parseOrderedA : Nat → List Tok → OptBlockInClause → OptBlockInClause → PRes ExprA
  | 0, _, _, _ => .error "fuel exhausted"
  | f + 1, toks, st, enc =>
    match parseAssignA f toks st enc with
    | .error e => .error e
    | .ok (e, rest, st1) =>
      match matchTok Tok.asc rest with
      | some rest2 => .ok (.ordered e (some false), rest2, st1)
      | none =>
        match matchTok Tok.desc rest with
        | some rest2 => .ok (.ordered e (some true), rest2, st1)
        | none => .ok (.ordered e none, rest, st1)

/-- sqlglot's `_parse_expressions` / `_parse_projections`: one or more
comma-separated `_parse_expression`s, each with the alias production. -/
def parseCsvAliasA : Nat → List Tok → OptBlockInClause → OptBlockInClause → PRes ExprListA
  | 0, _, _, _ => .error "fuel exhausted"
  | f + 1, toks, st, enc =>
    match parseExprAliasA f toks st enc with
    | .error e => .error e
    | .ok (e, rest, st1) =>
      match matchTok Tok.comma rest with
      | some rest2 =>
        match parseCsvAliasA f rest2 st1 enc with
        | .error err => .error err
        | .ok (es, rest3, st2) => .ok (.cons e es, rest3, st2)
      | none => .ok (.cons e .nil, rest, st1)

/-- `_parse_csv(self._parse_assignment)` (the `GROUP_BY`-context group
body, source line 158): comma-separated assignments without aliases. -/
def parseCsvAssignA : Nat → List Tok → OptBlockInClause → OptBlockInClause → PRes ExprListA
  | 0, _, _, _ => .error "fuel exhausted"
  | f + 1, toks, st, enc =>
    match parseAssignA f toks st enc with
    | .error e => .error e
    | .ok (e, rest, st1) =>
      match matchTok Tok.comma rest with
      | some rest2 =>
        match parseCsvAssignA f rest2 st1 enc with
        | .error err => .error err
        | .ok (es, rest3, st2) => .ok (.cons e es, rest3, st2)
      | none => .ok (.cons e .nil, rest, st1)

/-- `_parse_csv(self._parse_ordered)` (ORDER BY clauses and the
`ORDER_BY`-context group body, source line 160). -/
def parseCsvOrderedA : Nat → List Tok → OptBlockInClause → OptBlockInClause → PRes ExprListA
  | 0, _, _, _ => .error "fuel exhausted"
  | f + 1, toks, st, enc =>
    match parseOrderedA f toks st enc with
    | .error e => .error e
    | .ok (e, rest, st1) =>
      match matchTok Tok.comma rest with
      | some rest2 =>
        match parseCsvOrderedA f rest2 st1 enc with
        | .error err => .error err
        | .ok (es, rest3, st2) => .ok (.cons e es, rest3, st2)
      | none => .ok (.cons e .nil, rest, st1)

/-- `_parse_opt_func` (source lines 145-172) over the alias-extended AST,
with the clause dispatch written out in full: `PROJECTION` bodies call
`_parse_projections` (line 156) and `EXPRESSION` bodies
`_parse_expressions` (line 162), both with the alias production;
`GROUP_BY` bodies parse plain assignments (line 158) and `ORDER_BY` bodies
ordered expressions (line 160).  An empty `this` list is rejected by
`validate_expression` as in the base model. -/
def parseOptFuncA : Nat → GroupKind → List Tok → OptBlockInClause → OptBlockInClause → PRes ExprA
  | 0, _, _, _, _ => .error "fuel exhausted"
  | f + 1, kind, toks, st, enc =>
    match matchTok Tok.lparen toks with
    | some rest =>
      let argsRes : PRes ExprListA :=
        match matchTok Tok.rparen rest with
        | some rest2 => .ok (.nil, rest2, st)
        | none =>
          let body : PRes ExprListA :=
            if st = .orderBy then parseCsvOrderedA f rest st (groupBodyEnc st enc)
            else if st = .groupBy then parseCsvAssignA f rest st (groupBodyEnc st enc)
            else parseCsvAliasA f rest st (groupBodyEnc st enc)
          match body with
          | .error e => .error e
          | .ok (args, rest2, st1) =>
            match matchTok Tok.rparen rest2 with
            | some rest3 => .ok (args, rest3, st1)
            | none => .error "Expected rparen after group"
      match argsRes with
      | .error e => .error e
      | .ok (args, rest2, st1) =>
        match args with
        | .nil => .error "Required keyword this missing"
        | _ => .ok (kind.buildA args, rest2, st1)
    | none => .error "Expected lparen after group keyword"

/-- `_parse_opt_block` (source lines 174-199) over the alias-extended AST:
the body is always `self._parse_expressions()` (line 193), hence parses
with the alias production regardless of the clause context; the context
only matters for groups nested inside the body. -/
def parseOptBlockA : Nat → List Tok → OptBlockInClause → OptBlockInClause → PRes ExprA
  | 0, _, _, _ => .error "fuel exhausted"
  | f + 1, toks, _, enc =>
    match toks with
    | Tok.ident n :: rest =>
      match matchTok Tok.lbracket rest with
      | some rest2 =>
        match matchTok Tok.rbracket rest2 with
        | some rest3 => .ok (.optBlock n .nil, rest3, enc)
        | none =>
          match parseCsvAliasA f rest2 enc enc with
          | .error e => .error e
          | .ok (blocks, rest3, st1) =>
            match matchTok Tok.rbracket rest3 with
            | some rest4 => .ok (.optBlock n blocks, rest4, st1)
            | none => .error "Expected rbracket after OPT_BLOCK"
      | none => .error "Expected lbracket after OPT_BLOCK"
    | _ => .error "Expected block name after OPT_BLOCK"
end

/-- Optional `WHERE` clause over the alias-extended AST; `_parse_where`
parses its condition with `_parse_assignment`, without the alias
production. -/
def parseWhereOptA (f : Nat) (toks : List Tok) (st : OptBlockInClause) :
    PRes (Option ExprA) :=
  match matchTok Tok.whereKw toks with
  | some rest =>
    match parseAssignA f rest st .expression with
    | .error e => .error e
    | .ok (e, rest2, st1) => .ok (some e, rest2, st1)
  | none => .ok (none, toks, st)

/-- Optional `GROUP BY` clause over the alias-extended AST; the items are
plain assignments. -/
def parseGroupOptA (f : Nat) (toks : List Tok) (st : OptBlockInClause) :
    PRes (Option ExprListA) :=
  match matchTok Tok.groupKw toks with
  | some rest =>
    match matchTok Tok.byKw rest with
    | some rest2 =>
      match parseCsvAssignA f rest2 st .groupBy with
      | .error e => .error e
      | .ok (es, rest3, st1) => .ok (some es, rest3, st1)
    | none => .error "Expected BY after GROUP"
  | none => .ok (none, toks, st)

/-- Optional `ORDER BY` clause over the alias-extended AST. -/
def parseOrderOptA (f : Nat) (toks : List Tok) (st : OptBlockInClause) :
    PRes (Option ExprListA) :=
  match matchTok Tok.orderKw toks with
  | some rest =>
    match matchTok Tok.byKw rest with
    | some rest2 =>
      match parseCsvOrderedA f rest2 st .orderBy with
      | .error e => .error e
      | .ok (es, rest3, st1) => .ok (some es, rest3, st1)
    | none => .error "Expected BY after ORDER"
  | none => .ok (none, toks, st)

/-- Statement parser over the alias-extended AST: the projection list is
`_parse_projections` (alias production included), the bare-expression
fallback is `_parse_expression`. -/
def parseStatementA (f : Nat) (toks : List Tok) :
    Except String (StmtA × List Tok × OptBlockInClause) :=
  match matchTok Tok.select toks with
  | some rest =>
    match parseCsvAliasA f rest .expression .projection with
    | .error e => .error e
    | .ok (projs, r1, st1) =>
      match parseFromOpt r1 with
      | .error e => .error e
      | .ok (tbl, r2) =>
        match parseWhereOptA f r2 st1 with
        | .error e => .error e
        | .ok (w, r3, st2) =>
          match parseGroupOptA f r3 st2 with
          | .error e => .error e
          | .ok (g, r4, st3) =>
            match parseOrderOptA f r4 st3 with
            | .error e => .error e
            | .ok (o, r5, st4) => .ok (.selectS projs tbl w g o, r5, st4)
  | none =>
    match parseExprAliasA f toks .expression .expression with
    | .error e => .error e
    | .ok (e, rest, st1) => .ok (.exprStmt e, rest, st1)

/-- Whole-string parse over the alias-extended embedding (`parse_one`
with the same fuel convention as `parse`). -/
def parseA (s : String) : Except String StmtA :=
  match tokenizeL s.data with
  | .error e => .error e
  | .ok toks =>
    match parseStatementA (4 * toks.length + 8) toks with
    | .error e => .error e
    | .ok (stmt, [], _) => .ok stmt
    | .ok _ => .error "Unexpected trailing tokens"

/-- Python `"\\n" in sql_text` (the guard on source line 15): whether the
two-character backslash-`n` sequence occurs anywhere in the text. -/
def hasEscapedNewline : List Char → Bool
  | [] => false
  | '\\' :: 'n' :: _ => true
  | _ :: rest => hasEscapedNewline rest

/-- Python `str.replace("\\n", "\n")`: replace every leftmost,
non-overlapping two-character backslash-`n` sequence by a newline. -/
def replaceEscapedNewlines : List Char → List Char
  | [] => []
  | '\\' :: 'n' :: rest => '\n' :: replaceEscapedNewlines rest
  | c :: rest => c :: replaceEscapedNewlines rest

/-- The brace substitution of `clean_sql_text` (source line 19), applied
to every character position unconditionally. -/
def braceChar (c : Char) : Char :=
  if c = '\x7b' then '[' else if c = '\x7d' then ']' else c

/-- Python `str.strip()` whitespace characters (ASCII). -/
def isPyStripChar (c : Char) : Bool :=
  c = ' ' || c = '\t' || c = '\n' || c = '\r' || c = '\x0b' || c = '\x0c'

/-- Drop leading and trailing whitespace (Python `str.strip()`). -/
def stripChars (l : List Char) : List Char :=
  ((l.dropWhile isPyStripChar).reverse.dropWhile isPyStripChar).reverse

/-- `clean_sql_text` (source lines 10-29): if the text contains a literal
backslash-`n`, replace all of them by real newlines (the `if "\\n" in
sql_text` guard, lines 15-16); replace every `\x7b` by `[` and every
`\x7d` by `]` (line 19); strip leading and trailing whitespace (line 22).
The `print` calls are diagnostics only. -/
def clean_sql_text (s : String) : String :=
  let l := s.data
  let l1 := if hasEscapedNewline l then replaceEscapedNewlines l else l
  String.mk (stripChars (l1.map braceChar))

/-- `verify_sql` (source lines 224-237): parse with the `DTMySQL` dialect
and regenerate inside a `try`/`except` that converts any exception into
`False`.  On this fragment generation is total, so the outcome is exactly
whether the parse succeeds. -/
def verify_sql (sql_text : String) : Bool :=
  match parse sql_text with
  | .ok _ => true
  | .error _ => false

/-- The per-batch template loop of `__main__` (source lines 254-270):
iterate the templates in order, maintaining `full_success` (initially
`True`, cleared by any failed verification) and `include_success`
(initially `False`, set by any successful verification), and record each
template's `success` flag in order.  The surrounding `try`/`except`
(lines 257, 267-270) cannot fire in this model because `clean_sql_text`
and `verify_sql` are total functions of the template string. -/
def processTemplates : List String → Bool → Bool → Bool × Bool × List Bool
  | [], full, incl => (full, incl, [])
  | t :: ts, full, incl =>
    let ok := verify_sql (clean_sql_text t)
    let r := processTemplates ts (full && ok) (incl || ok)
    (r.1, r.2.1, ok :: r.2.2)

/-- The three batch dispositions of the aggregation loop. -/
inductive Disposition where
  | full | partialD | failed
deriving DecidableEq, Repr

/-- Batch classification (source lines 272-277): count the batch under
`full_success_chunk` if `full_success` is still set, else under
`include_success_chunk` if some template verified, else under
`failed_chunk`. -/
def batchDisposition (ts : List String) : Disposition :=
  let r := processTemplates ts true false
  if r.1 then .full else if r.2.1 then .partialD else .failed

/-- The chunk counters accumulated over all batches of one run
(`full_success_chunk`, `include_success_chunk`, `failed_chunk`). -/
def runChunks : List (List String) → Nat × Nat × Nat
  | [] => (0, 0, 0)
  | b :: bs =>
    let r := runChunks bs
    match batchDisposition b with
    | .full => (r.1 + 1, r.2.1, r.2.2)
    | .partialD => (r.1, r.2.1 + 1, r.2.2)
    | .failed => (r.1, r.2.1, r.2.2 + 1)

/-! ### Auxiliary definitions used by the verification statements -/

/-- The cleaning pipeline exactly as the specification words it: replace
every two-character backslash-`n` escape unconditionally, replace braces at
every position, then strip — with no containment guard.  Used to compare
against `clean_sql_text` as translated from the source. -/
def cleanSpecSteps (s : String) : String :=
  String.mk (stripChars ((replaceEscapedNewlines s.data).map braceChar))

/-- `", ".join` on rendered strings. -/
def joinCommaSpace : List String → String
  | [] => ""
  | [s] => s
  | s :: rest => s ++ ", " ++ joinCommaSpace rest

/-- The rendered SQL of each child of a macro node, in child order. -/
def sqlArgs : ExprList → List String
  | .nil => []
  | .cons e tl => Expr.sql e :: sqlArgs tl

/-- The keyword token of each group kind. -/
def kindTok : GroupKind → Tok
  | .optionalG => .optionalK
  | .requiredG => .requiredK
  | .loopG => .loopK

/-- A name that tokenizes back to the identifier token it came from:
nonempty, made of word characters, and not (case-insensitively) one of the
fragment's keywords. -/
def identOK (s : String) : Bool :=
  !s.data.isEmpty && s.data.all isWordChar
    && (keywordTok (String.mk (s.data.map Char.toUpper))).isNone

mutual
/-- All identifiers occurring in an expression are well formed
(`identOK`). -/
def namesOK : Expr → Bool
  | .column n => identOK n
  | .eq a b => namesOK a && namesOK b
  | .ordered e _ => namesOK e
  | .optionalFunc args => namesOKList args
  | .requiredFunc args => namesOKList args
  | .loopFunc args => namesOKList args
  | .optBlock n bs => identOK n && namesOKList bs

/-- All identifiers in a list of expressions are well formed. -/
def namesOKList : ExprList → Bool
  | .nil => true
  | .cons e tl => namesOK e && namesOKList tl
end

/-- Well-formed table name in an optional `FROM` clause. -/
def tblNamesOK : Option String → Bool
  | none => true
  | some n => identOK n

/-- Well-formed identifiers in an optional single-expression clause. -/
def optExprNamesOK : Option Expr → Bool
  | none => true
  | some e => namesOK e

/-- Well-formed identifiers in an optional expression-list clause. -/
def optListNamesOK : Option ExprList → Bool
  | none => true
  | some es => namesOKList es

/-- All identifiers in a statement are well formed. -/
def namesOKStmt : Stmt → Bool
  | .exprStmt e => namesOK e
  | .selectS projs tbl w g o =>
    namesOKList projs && tblNamesOK tbl && optExprNamesOK w
    && optListNamesOK g && optListNamesOK o

/-- Well-formedness of a token produced by the tokenizer: identifier
payloads satisfy `identOK`; all other tokens carry no payload. -/
def TokWF : Tok → Prop
  | .ident s => identOK s = true
  | _ => True

/-- The head of the token list (if any) is outside the given set; used as
the follow-set condition of the round-trip lemmas. -/
def headNotIn (bad : List Tok) : List Tok → Prop
  | [] => True
  | t :: _ => t ∉ bad

/-- The character list does not begin with a word character (so a word
placed before it tokenizes on its own). -/
def noWordStart : List Char → Prop
  | [] => True
  | c :: _ => isWordChar c = false

/-- Tokens that can begin an expression (identifiers and the four macro
keywords); every generated expression token list starts with one. -/
def isStartTok : Tok → Bool
  | .ident _ => true
  | .optionalK => true
  | .requiredK => true
  | .loopK => true
  | .optBlockK => true
  | _ => false

/-- Round-trip statement for `parseAtom` at one fuel level: a successful
parse leaves a suffix of the input, the generated tokens have exactly the
consumed length, names in the result are well formed when the input tokens
are, and re-parsing the generated tokens before any continuation
reproduces the result and state. -/
def RTatomP (f : Nat) : Prop :=
  ∀ toks st enc e rest st2, parseAtom f toks st enc = .ok (e, rest, st2) →
    (rest <:+ toks)
    ∧ ((genToksE e).length + rest.length = toks.length)
    ∧ ((∀ t ∈ toks, TokWF t) → namesOK e = true)
    ∧ (∀ k, parseAtom f (genToksE e ++ k) st enc = .ok (e, k, st2))

/-- Round-trip statement for `parseExpr`; the continuation must not start
with `=`, which would extend the parse. -/
def RTexprP (f : Nat) : Prop :=
  ∀ toks st enc e rest st2, parseExpr f toks st enc = .ok (e, rest, st2) →
    (rest <:+ toks)
    ∧ ((genToksE e).length + rest.length = toks.length)
    ∧ ((∀ t ∈ toks, TokWF t) → namesOK e = true)
    ∧ (∀ k, headNotIn [Tok.eqT] k →
        parseExpr f (genToksE e ++ k) st enc = .ok (e, k, st2))

/-- Round-trip statement for `parseOrdered`. -/
def RTordP (f : Nat) : Prop :=
  ∀ toks st enc e rest st2, parseOrdered f toks st enc = .ok (e, rest, st2) →
    (rest <:+ toks)
    ∧ ((genToksE e).length + rest.length = toks.length)
    ∧ ((∀ t ∈ toks, TokWF t) → namesOK e = true)
    ∧ (∀ k, headNotIn [Tok.eqT, Tok.asc, Tok.desc] k →
        parseOrdered f (genToksE e ++ k) st enc = .ok (e, k, st2))

/-- Round-trip statement for `parseCsvExpr`. -/
def RTcsvEP (f : Nat) : Prop :=
  ∀ toks st enc es rest st2, parseCsvExpr f toks st enc = .ok (es, rest, st2) →
    (rest <:+ toks)
    ∧ ((genToksList es).length + rest.length = toks.length)
    ∧ ((∀ t ∈ toks, TokWF t) → namesOKList es = true)
    ∧ (∀ k, headNotIn [Tok.eqT, Tok.comma] k →
        parseCsvExpr f (genToksList es ++ k) st enc = .ok (es, k, st2))

/-- Round-trip statement for `parseCsvOrdered`. -/
def RTcsvOP (f : Nat) : Prop :=
  ∀ toks st enc es rest st2, parseCsvOrdered f toks st enc = .ok (es, rest, st2) →
    (rest <:+ toks)
    ∧ ((genToksList es).length + rest.length = toks.length)
    ∧ ((∀ t ∈ toks, TokWF t) → namesOKList es = true)
    ∧ (∀ k, headNotIn [Tok.eqT, Tok.asc, Tok.desc, Tok.comma] k →
        parseCsvOrdered f (genToksList es ++ k) st enc = .ok (es, k, st2))

/-- Round-trip statement for `parseOptFunc` (entered after the keyword,
so the generated form it re-parses starts at the opening parenthesis). -/
def RTfuncP (f : Nat) : Prop :=
  ∀ kind toks st enc e rest st2, parseOptFunc f kind toks st enc = .ok (e, rest, st2) →
    ∃ args, e = kind.build args
    ∧ (rest <:+ toks)
    ∧ ((genToksList args).length + 2 + rest.length = toks.length)
    ∧ ((∀ t ∈ toks, TokWF t) → namesOKList args = true)
    ∧ (∀ k, parseOptFunc f kind (Tok.lparen :: (genToksList args ++ Tok.rparen :: k)) st enc
        = .ok (e, k, st2))

/-- Round-trip statement for `parseOptBlock` (entered after the keyword). -/
def RTblockP (f : Nat) : Prop :=
  ∀ toks st enc e rest st2, parseOptBlock f toks st enc = .ok (e, rest, st2) →
    ∃ n bs, e = Expr.optBlock n bs
    ∧ (rest <:+ toks)
    ∧ ((genToksList bs).length + 3 + rest.length = toks.length)
    ∧ ((∀ t ∈ toks, TokWF t) → (identOK n && namesOKList bs) = true)
    ∧ (∀ k, parseOptBlock f (Tok.ident n :: Tok.lbracket :: (genToksList bs ++ Tok.rbracket :: k)) st enc
        = .ok (e, k, st2))

/-! ### General helper lemmas -/

theorem matchTok_cons_self (t : Tok) (l : List Tok) : matchTok t (t :: l) = some l := by
  simp [matchTok]

theorem matchTok_none_of_headNotIn (t : Tok) (bad : List Tok) (k : List Tok)
    (hmem : t ∈ bad) (h : headNotIn bad k) : matchTok t k = none := by
  cases k with
  | nil => rfl
  | cons x xs =>
    simp only [headNotIn] at h
    have hx : x ≠ t := fun hxt => h (hxt ▸ hmem)
    simp [matchTok, hx]

theorem mem_of_mem_dropWhile {α : Type} (p : α → Bool) (l : List α) (c : α)
    (h : c ∈ l.dropWhile p) : c ∈ l := by
  induction l with
  | nil => simp at h
  | cons a as ih =>
    rw [List.dropWhile_cons] at h
    by_cases hp : p a
    · simp only [hp, if_true] at h
      exact List.mem_cons_of_mem _ (ih h)
    · simp only [hp, Bool.false_eq_true, if_false] at h
      exact h

theorem stripChars_subset (l : List Char) : stripChars l ⊆ l := by
  intro c hc
  simp only [stripChars, List.mem_reverse] at hc
  have h1 : c ∈ (l.dropWhile isPyStripChar).reverse :=
    mem_of_mem_dropWhile _ _ _ hc
  rw [List.mem_reverse] at h1
  exact mem_of_mem_dropWhile _ _ _ h1

/-! ### Batch aggregation (claims C8, C9, C10) -/

theorem processTemplates_full_flag (ts : List String) (full incl : Bool) :
    (processTemplates ts full incl).1
      = (full && ts.all (fun t => verify_sql (clean_sql_text t))) := by
  induction ts generalizing full incl with
  | nil => simp [processTemplates]
  | cons t ts ih => simp [processTemplates, ih, Bool.and_assoc]

theorem processTemplates_incl_flag (ts : List String) (full incl : Bool) :
    (processTemplates ts full incl).2.1
      = (incl || ts.any (fun t => verify_sql (clean_sql_text t))) := by
  induction ts generalizing full incl with
  | nil => simp [processTemplates]
  | cons t ts ih => simp [processTemplates, ih, Bool.or_assoc]

theorem processTemplates_flags (ts : List String) (full incl : Bool) :
    (processTemplates ts full incl).2.2
      = ts.map (fun t => verify_sql (clean_sql_text t)) := by
  induction ts generalizing full incl with
  | nil => rfl
  | cons t ts ih => simp [processTemplates, ih]

theorem batchDisposition_eq (ts : List String) :
    batchDisposition ts
      = (if ts.all (fun t => verify_sql (clean_sql_text t)) then Disposition.full
         else if ts.any (fun t => verify_sql (clean_sql_text t)) then Disposition.partialD
         else Disposition.failed) := by
  simp [batchDisposition, processTemplates_full_flag, processTemplates_incl_flag]

theorem runChunks_counts (bs : List (List String)) :
    runChunks bs = (bs.countP (fun b => batchDisposition b == Disposition.full),
                    bs.countP (fun b => batchDisposition b == Disposition.partialD),
                    bs.countP (fun b => batchDisposition b == Disposition.failed)) := by
  induction bs with
  | nil => rfl
  | cons b bs ih =>
    simp only [runChunks, ih]
    rcases hd : batchDisposition b <;> simp [List.countP_cons, hd]

/-- C8: a batch of one or more templates is classified full success exactly
when every template verifies, partial success exactly when at least one but
not all verify, and failure exactly when none verifies; the per-run chunk
counters count batches by this classification. -/
theorem batch_aggregation_classification (ts : List String) (hne : ts ≠ []) :
    (batchDisposition ts = Disposition.full
        ↔ ∀ t ∈ ts, verify_sql (clean_sql_text t) = true)
    ∧ (batchDisposition ts = Disposition.partialD
        ↔ ((∃ t ∈ ts, verify_sql (clean_sql_text t) = true)
            ∧ ¬ ∀ t ∈ ts, verify_sql (clean_sql_text t) = true))
    ∧ (batchDisposition ts = Disposition.failed
        ↔ ∀ t ∈ ts, verify_sql (clean_sql_text t) = false)
    ∧ (∀ bs : List (List String),
        runChunks bs = (bs.countP (fun b => batchDisposition b == Disposition.full),
                        bs.countP (fun b => batchDisposition b == Disposition.partialD),
                        bs.countP (fun b => batchDisposition b == Disposition.failed))) := by
  rw [batchDisposition_eq]
  refine ⟨?_, ?_, ?_, runChunks_counts⟩
  · by_cases hall : ts.all (fun t => verify_sql (clean_sql_text t)) = true
    · rw [if_pos hall]
      have h2 := List.all_eq_true.mp hall
      exact ⟨fun _ => fun t ht => h2 t ht, fun _ => rfl⟩
    · rw [if_neg hall]
      constructor
      · intro h
        split at h <;> exact absurd h (by decide)
      · intro h
        exact absurd (List.all_eq_true.mpr h) hall
  · by_cases hall : ts.all (fun t => verify_sql (clean_sql_text t)) = true
    · rw [if_pos hall]
      have h2 := List.all_eq_true.mp hall
      constructor
      · intro h
        exact absurd h (by decide)
      · intro h
        exact absurd (fun t ht => h2 t ht) h.2
    · rw [if_neg hall]
      by_cases hany : ts.any (fun t => verify_sql (clean_sql_text t)) = true
      · rw [if_pos hany]
        have h3 := List.any_eq_true.mp hany
        refine ⟨fun _ => ⟨h3, fun hc => hall (List.all_eq_true.mpr hc)⟩, fun _ => rfl⟩
      · rw [if_neg hany]
        constructor
        · intro h
          exact absurd h (by decide)
        · intro h
          exact absurd (List.any_eq_true.mpr h.1) hany
  · by_cases hall : ts.all (fun t => verify_sql (clean_sql_text t)) = true
    · rw [if_pos hall]
      constructor
      · intro h
        exact absurd h (by decide)
      · intro h
        obtain ⟨t0, ht0⟩ := List.exists_mem_of_ne_nil ts hne
        have h1 := List.all_eq_true.mp hall t0 ht0
        have h2 := h t0 ht0
        rw [h2] at h1
        exact absurd h1 (by decide)
    · rw [if_neg hall]
      by_cases hany : ts.any (fun t => verify_sql (clean_sql_text t)) = true
      · rw [if_pos hany]
        constructor
        · intro h
          exact absurd h (by decide)
        · intro h
          obtain ⟨t0, ht0, hv⟩ := List.any_eq_true.mp hany
          have h2 := h t0 ht0
          rw [h2] at hv
          exact absurd hv (by decide)
      · rw [if_neg hany]
        refine ⟨fun _ => ?_, fun _ => rfl⟩
        intro t ht
        cases hvt : verify_sql (clean_sql_text t) with
        | false => rfl
        | true => exact absurd (List.any_eq_true.mpr ⟨t, ht, hvt⟩) hany

/-- Witness for C8 at a concrete two-template batch (one verifying, one
malformed). -/
theorem batch_aggregation_classification_witness :
    batchDisposition ["SELECT a FROM t", "REQUIRED("] = Disposition.partialD :=
  (batch_aggregation_classification ["SELECT a FROM t", "REQUIRED("]
      (by simp)).2.1.mpr (by decide)

/-- C9: per-template error isolation — each template's recorded success
flag is a function of that template alone (the whole per-template list is
the pointwise image of the batch), and in a concrete batch of three
templates whose second is malformed, templates 1 and 3 are marked success
and template 2 failure, the batch being classified partial success. -/
theorem per_template_isolation :
    (∀ ts : List String, (processTemplates ts true false).2.2
        = ts.map (fun t => verify_sql (clean_sql_text t)))
    ∧ (processTemplates ["SELECT a FROM t", "REQUIRED(", "SELECT b FROM t"] true false).2.2
        = [true, false, true]
    ∧ batchDisposition ["SELECT a FROM t", "REQUIRED(", "SELECT b FROM t"]
        = Disposition.partialD := by
  refine ⟨fun ts => processTemplates_flags ts true false, by decide, by decide⟩

/-- C10: an empty batch leaves `full_success` at its initial `True`, so it
is counted under `full_success_chunk`; the other two counters are
untouched. -/
theorem empty_batch_counts_full :
    batchDisposition [] = Disposition.full ∧ runChunks [[]] = (1, 0, 0) := by
  exact ⟨rfl, rfl⟩

/-! ### Cleaning (claim C5) -/

theorem replaceEscapedNewlines_eq_self (l : List Char)
    (h : hasEscapedNewline l = false) : replaceEscapedNewlines l = l := by
  induction l using replaceEscapedNewlines.induct with
  | case1 => rfl
  | case2 rest ih =>
    rw [show hasEscapedNewline ('\\' :: 'n' :: rest) = true from rfl] at h
    exact absurd h (by decide)
  | case3 c rest hguard ih =>
    rw [hasEscapedNewline.eq_3 c rest hguard] at h
    rw [replaceEscapedNewlines.eq_3 c rest hguard, ih h]

theorem braceChar_ne_brace (c : Char) :
    braceChar c ≠ '\x7b' ∧ braceChar c ≠ '\x7d' := by
  unfold braceChar
  split_ifs with h1 h2
  · exact ⟨by decide, by decide⟩
  · exact ⟨by decide, by decide⟩
  · exact ⟨h1, h2⟩

theorem clean_no_braces (s : String) :
    ∀ c ∈ (clean_sql_text s).data, c ≠ '\x7b' ∧ c ≠ '\x7d' := by
  intro c hc
  simp only [clean_sql_text] at hc
  have h1 := stripChars_subset _ hc
  rw [List.mem_map] at h1
  obtain ⟨a, _, ha⟩ := h1
  rw [← ha]
  exact braceChar_ne_brace a

/-- C5: `clean_sql_text` performs exactly the three-step normalization the
specification describes (unconditional backslash-`n` unescaping, positional
brace-to-bracket mapping even inside quoted literals, then whitespace
stripping): it agrees with the unguarded pipeline on every input, its
output never contains a brace, and it maps the claim's concrete example —
and a quoted-literal example — as stated. -/
theorem clean_sql_text_spec :
    (∀ s : String, clean_sql_text s = cleanSpecSteps s)
    ∧ (∀ s : String, ∀ c ∈ (clean_sql_text s).data, c ≠ '\x7b' ∧ c ≠ '\x7d')
    ∧ clean_sql_text "a\\nb\x7bx\x7d" = "a\nb[x]"
    ∧ clean_sql_text " SELECT c FROM t WHERE v = \"\x7bx\x7d\" "
        = "SELECT c FROM t WHERE v = \"[x]\"" := by
  refine ⟨?_, clean_no_braces, by decide, by decide⟩
  intro s
  simp only [clean_sql_text, cleanSpecSteps]
  cases h : hasEscapedNewline s.data with
  | true => simp [h]
  | false => simp [h, replaceEscapedNewlines_eq_self s.data h]

/-- Witness for C5's membership hypothesis at a concrete input. -/
theorem clean_sql_text_spec_witness : '[' ≠ '\x7b' ∧ '[' ≠ '\x7d' :=
  clean_sql_text_spec.2.1 "\x7b" '[' (by decide)

/-! ### Generator format (claim C7) -/

theorem string_eq_of_data (s t : String) (h : s.data = t.data) : s = t :=
  String.ext h

theorem genLList_data : ∀ es : ExprList, genLList es = (joinCommaSpace (sqlArgs es)).data
  | .nil => rfl
  | .cons _ .nil => rfl
  | .cons e (.cons e2 tl) => by
    have ih := genLList_data (.cons e2 tl)
    show genL e ++ ',' :: ' ' :: genLList (.cons e2 tl)
        = ((Expr.sql e ++ ", ") ++ joinCommaSpace (sqlArgs (.cons e2 tl))).data
    rw [ih]
    simp [Expr.sql, String.data_append]

/-- C7 counterexample: the generator inserts a space between a group
keyword and its opening parenthesis (`"REQUIRED ("`, source line 104) and
no space between a block name and its bracket (line 97), contradicting the
claimed exact formats `<GROUP_KEYWORD>(<items>)` and
`OPT_BLOCK <name> [<items>]`. -/
theorem generator_spacing_counterexample :
    Expr.sql (Expr.requiredFunc (.cons (.column "a") (.cons (.column "b") .nil)))
        = "REQUIRED (a, b)"
    ∧ "REQUIRED (a, b)" ≠ "REQUIRED(a, b)"
    ∧ Expr.sql (Expr.optBlock "blk" (.cons (.column "a") .nil)) = "OPT_BLOCK blk[a]"
    ∧ "OPT_BLOCK blk[a]" ≠ "OPT_BLOCK blk [a]" := by
  exact ⟨by decide, by decide, by decide, by decide⟩

/-- C7 amended: group nodes render as the keyword, a space, then the
parenthesised comma-joined children; block nodes render as the block
keyword, a space, the name, then immediately (no space) the bracketed
comma-joined children; children appear in exactly their stored order (the
rendered list is the in-order image `sqlArgs`). -/
theorem generator_format_amended :
    (∀ args, Expr.sql (Expr.requiredFunc args)
        = "REQUIRED (" ++ joinCommaSpace (sqlArgs args) ++ ")")
    ∧ (∀ args, Expr.sql (Expr.optionalFunc args)
        = "OPTIONAL (" ++ joinCommaSpace (sqlArgs args) ++ ")")
    ∧ (∀ args, Expr.sql (Expr.loopFunc args)
        = "LOOP (" ++ joinCommaSpace (sqlArgs args) ++ ")")
    ∧ (∀ n bs, Expr.sql (Expr.optBlock n bs)
        = "OPT_BLOCK " ++ n ++ "[" ++ joinCommaSpace (sqlArgs bs) ++ "]") := by
  refine ⟨fun args => ?_, fun args => ?_, fun args => ?_, fun n bs => ?_⟩ <;>
    apply string_eq_of_data <;>
    simp [Expr.sql, genL, genLList_data, List.append_assoc]

/-! ### Duplicate block names (claim C2) -/

/-- C2 counterexample: a template with two `OPT_BLOCK` openers sharing the
name `d` parses successfully — `_parse_opt_block` performs no uniqueness
check and no `DuplicateBlockNameError` exists in the code, so the claimed
parse failure does not happen and the resulting AST holds two blocks with
the same name. -/
theorem duplicate_block_names_counterexample :
    parse "SELECT OPT_BLOCK d [a], OPT_BLOCK d [b] FROM t"
      = .ok (.selectS
          (.cons (.optBlock "d" (.cons (.column "a") .nil))
            (.cons (.optBlock "d" (.cons (.column "b") .nil)) .nil))
          (some "t") none none none) := rfl

/-- C2 amended: parsing a template containing two block-openers with the
same name succeeds, the parser recording both blocks (in any clause state
and context); block names are not checked for uniqueness. -/
theorem duplicate_block_names_accepted (n : String) (f : Nat) (st enc : OptBlockInClause) :
    parseCsvExpr (f + 8)
        [Tok.optBlockK, Tok.ident n, Tok.lbracket, Tok.ident "a", Tok.rbracket, Tok.comma,
         Tok.optBlockK, Tok.ident n, Tok.lbracket, Tok.ident "b", Tok.rbracket] st enc
      = .ok (.cons (.optBlock n (.cons (.column "a") .nil))
              (.cons (.optBlock n (.cons (.column "b") .nil)) .nil), [], enc) := rfl

/-! ### Unscoped groups (claim C3) -/

/-- C3 counterexample: `REQUIRED(a, b)` with no enclosing block-opener
parses successfully into a bare `RequiredFunc` node — the keyword table
dispatches group parsers unconditionally and no `UnscopedGroupError`
exists in the code. -/
theorem unscoped_group_counterexample :
    parse "REQUIRED(a, b)"
      = .ok (.exprStmt (.requiredFunc (.cons (.column "a") (.cons (.column "b") .nil)))) := rfl

/-- C3 amended: every group keyword parses successfully at any expression
position regardless of any enclosing `OPT_BLOCK` (here: top-level
expression state, arbitrary stack context), producing a group node outside
any block. -/
theorem unscoped_group_accepted (kind : GroupKind) (f : Nat) (enc : OptBlockInClause)
    (a b : String) :
    parseOptFunc (f + 5) kind [Tok.lparen, Tok.ident a, Tok.comma, Tok.ident b, Tok.rparen]
        .expression enc
      = .ok (kind.build (.cons (.column a) (.cons (.column b) .nil)), [], .expression) := rfl

/-! ### Empty macro bodies (claim C4) -/

/-- C4 counterexample: `OPT_BLOCK blk []` parses successfully with an
empty child list (the `blocks` argument of `OptBlock` is optional,
`arg_types` source line 72), so it is not true that every macro node has a
non-empty child list after a successful parse, nor that an empty block
body is a parse error. -/
theorem empty_block_accepted_counterexample :
    parse "OPT_BLOCK blk []" = .ok (.exprStmt (.optBlock "blk" .nil)) := rfl

/-- C4 amended: a group macro with an empty body (`LOOP()` etc.) fails to
parse — sqlglot's required-argument validation rejects the empty `this`
list — but an `OPT_BLOCK` with empty brackets parses successfully with an
empty `blocks` list, since that argument is optional. -/
theorem empty_macro_bodies_amended :
    (∀ (kind : GroupKind) (f : Nat) (st enc : OptBlockInClause) (k : List Tok),
        parseOptFunc (f + 1) kind (Tok.lparen :: Tok.rparen :: k) st enc
          = .error "Required keyword this missing")
    ∧ parse "LOOP()" = .error "Required keyword this missing"
    ∧ (∀ (n : String) (f : Nat) (st enc : OptBlockInClause) (k : List Tok),
        parseOptBlock (f + 1) (Tok.ident n :: Tok.lbracket :: Tok.rbracket :: k) st enc
          = .ok (.optBlock n .nil, k, enc))
    ∧ parse "OPT_BLOCK nb []" = .ok (.exprStmt (.optBlock "nb" .nil)) := by
  exact ⟨fun _ _ _ _ _ => rfl, rfl, fun _ _ _ _ _ => rfl, rfl⟩

/-! ### Clause-sensitive parsing (claim C6) -/

/-- C6 counterexample: in WHERE-style/expression context the parse of a
group item carrying a bare directional modifier does not fail —
`_parse_expressions` parses each item as `_parse_alias(_parse_assignment)`
and the `DESC` token type belongs to `ID_VAR_TOKENS`, so `b DESC` parses
as column `b` with implicit alias `DESC` and the whole template parses
successfully, contradicting the claimed rejection. -/
theorem directional_alias_counterexample :
    parseA "SELECT a FROM t WHERE OPT_BLOCK o [REQUIRED(b DESC)]"
      = .ok (.selectS (.cons (.column "a") .nil) (some "t")
          (some (.optBlock "o"
            (.cons (.requiredFunc (.cons (.aliasA (.column "b") "DESC") .nil)) .nil)))
          none none) := rfl

/-- C6 amended: the clause context decides which sub-grammar a group body
parses with, but not success versus failure on a directional modifier.  In
ORDER BY state the items parse as ordered expressions, so `DESC`/`ASC`
become direction flags on `Ordered` nodes; in expression (WHERE-style)
state the items parse with the implicit-alias production of
`_parse_expression`, so a bare directional word is consumed as a column
alias and the parse succeeds with an `Alias` node instead; in GROUP BY
state the items are plain assignments and a trailing directional word does
make the parse fail.  Shown for all group kinds, names and continuations,
and at whole-template level for the ORDER BY / WHERE pair of templates. -/
theorem clause_sensitive_group_parsing_amended :
    (∀ (kind : GroupKind) (f : Nat) (enc : OptBlockInClause) (n : String) (k : List Tok),
        parseOptFuncA (f + 5) kind (Tok.lparen :: Tok.ident n :: Tok.desc :: Tok.rparen :: k)
            .orderBy enc
          = .ok (kind.buildA (.cons (.ordered (.column n) (some true)) .nil), k, .orderBy))
    ∧ (∀ (kind : GroupKind) (f : Nat) (enc : OptBlockInClause) (n : String) (k : List Tok),
        parseOptFuncA (f + 5) kind (Tok.lparen :: Tok.ident n :: Tok.asc :: Tok.rparen :: k)
            .orderBy enc
          = .ok (kind.buildA (.cons (.ordered (.column n) (some false)) .nil), k, .orderBy))
    ∧ (∀ (kind : GroupKind) (f : Nat) (enc : OptBlockInClause) (n : String) (k : List Tok),
        parseOptFuncA (f + 5) kind (Tok.lparen :: Tok.ident n :: Tok.desc :: Tok.rparen :: k)
            .expression enc
          = .ok (kind.buildA (.cons (.aliasA (.column n) "DESC") .nil), k, .expression))
    ∧ (∀ (kind : GroupKind) (f : Nat) (enc : OptBlockInClause) (n : String) (k : List Tok),
        parseOptFuncA (f + 5) kind (Tok.lparen :: Tok.ident n :: Tok.desc :: Tok.rparen :: k)
            .groupBy enc
          = .error "Expected rparen after group")
    ∧ parseA "SELECT a FROM t ORDER BY OPT_BLOCK o [REQUIRED(b DESC)]"
        = .ok (.selectS (.cons (.column "a") .nil) (some "t") none none
            (some (.cons (.ordered (.optBlock "o"
              (.cons (.requiredFunc (.cons (.ordered (.column "b") (some true)) .nil)) .nil))
              none) .nil)))
    ∧ parseA "SELECT a FROM t WHERE OPT_BLOCK o [REQUIRED(b DESC)]"
        = .ok (.selectS (.cons (.column "a") .nil) (some "t")
            (some (.optBlock "o"
              (.cons (.requiredFunc (.cons (.aliasA (.column "b") "DESC") .nil)) .nil)))
            none none) := by
  exact ⟨fun _ _ _ _ _ => rfl, fun _ _ _ _ _ => rfl, fun _ _ _ _ _ => rfl,
    fun _ _ _ _ _ => rfl, rfl, rfl⟩

/-! ### Tokenizer stepping lemmas (towards claim C1) -/

theorem length_dropWhile_le {α : Type} (p : α → Bool) (l : List α) :
    (l.dropWhile p).length ≤ l.length := by
  induction l with
  | nil => simp
  | cons c cs ih =>
    rw [List.dropWhile_cons]
    by_cases h : p c
    · simp only [h, if_true]
      exact Nat.le_succ_of_le ih
    · simp [h]

theorem tokenizeGo_irrel : ∀ (n : Nat) (l : List Char), l.length ≤ n →
    ∀ f1 f2, l.length ≤ f1 → l.length ≤ f2 → tokenizeGo f1 l = tokenizeGo f2 l := by
  intro n
  induction n with
  | zero =>
    intro l hl f1 f2 _ _
    have hnil : l = [] := List.length_eq_zero.mp (Nat.le_zero.mp hl)
    subst hnil
    cases f1 <;> cases f2 <;> rfl
  | succ n ih =>
    intro l hl f1 f2 h1 h2
    cases l with
    | nil => cases f1 <;> cases f2 <;> rfl
    | cons c cs =>
      simp only [List.length_cons] at hl h1 h2
      cases f1 with
      | zero => omega
      | succ g1 =>
        cases f2 with
        | zero => omega
        | succ g2 =>
          rw [tokenizeGo.eq_3, tokenizeGo.eq_3]
          have hcs : cs.length ≤ n := by omega
          have hg1 : cs.length ≤ g1 := by omega
          have hg2 : cs.length ≤ g2 := by omega
          have hdl := length_dropWhile_le isWordChar cs
          rw [ih cs hcs g1 g2 hg1 hg2,
            ih (cs.dropWhile isWordChar) (le_trans hdl hcs) g1 g2
              (le_trans hdl hg1) (le_trans hdl hg2)]

theorem puncTok_not_space (c : Char) (t : Tok) (hp : puncTok c = some t) :
    isSpaceChar c = false := by
  unfold puncTok at hp
  split_ifs at hp with h1 h2 h3 h4 h5 h6
  · subst h1; decide
  · subst h2; decide
  · subst h3; decide
  · subst h4; decide
  · subst h5; decide
  · subst h6; decide

theorem isWordChar_not_space (c : Char) (h : isWordChar c = true) :
    isSpaceChar c = false := by
  cases hs : isSpaceChar c
  · rfl
  · exfalso
    simp only [isSpaceChar, Bool.or_eq_true, decide_eq_true_eq] at hs
    rcases hs with ((h1 | h1) | h1) | h1 <;> subst h1 <;> exact absurd h (by decide)

theorem isWordChar_not_punc (c : Char) (h : isWordChar c = true) :
    puncTok c = none := by
  unfold puncTok
  split_ifs with h1 h2 h3 h4 h5 h6
  · rw [h1] at h; exact absurd h (by decide)
  · rw [h2] at h; exact absurd h (by decide)
  · rw [h3] at h; exact absurd h (by decide)
  · rw [h4] at h; exact absurd h (by decide)
  · rw [h5] at h; exact absurd h (by decide)
  · rw [h6] at h; exact absurd h (by decide)
  · rfl

theorem takeWhile_append_of_all (w rest : List Char)
    (hall : ∀ c ∈ w, isWordChar c = true) (hb : noWordStart rest) :
    (w ++ rest).takeWhile isWordChar = w := by
  induction w with
  | nil =>
    cases rest with
    | nil => rfl
    | cons r rs =>
      simp only [noWordStart] at hb
      simp [List.takeWhile_cons, hb]
  | cons a as ih =>
    have ha := hall a (by simp)
    simp only [List.cons_append, List.takeWhile_cons, ha, if_true]
    rw [ih (fun c hc => hall c (by simp [hc]))]

theorem dropWhile_append_of_all (w rest : List Char)
    (hall : ∀ c ∈ w, isWordChar c = true) (hb : noWordStart rest) :
    (w ++ rest).dropWhile isWordChar = rest := by
  induction w with
  | nil =>
    cases rest with
    | nil => rfl
    | cons r rs =>
      simp only [noWordStart] at hb
      simp [List.dropWhile_cons, hb]
  | cons a as ih =>
    have ha := hall a (by simp)
    simp only [List.cons_append, List.dropWhile_cons, ha, if_true]
    exact ih (fun c hc => hall c (by simp [hc]))

theorem tokenizeL_cons_space (c : Char) (l : List Char) (h : isSpaceChar c = true) :
    tokenizeL (c :: l) = tokenizeL l := by
  show tokenizeGo (l.length + 1) (c :: l) = tokenizeGo l.length l
  rw [tokenizeGo.eq_3]
  simp [h]

theorem tokenizeL_cons_punc (c : Char) (t : Tok) (hp : puncTok c = some t)
    (l : List Char) :
    tokenizeL (c :: l) = match tokenizeL l with
      | .ok ts => .ok (t :: ts)
      | .error e => .error e := by
  show tokenizeGo (l.length + 1) (c :: l) = _
  rw [tokenizeGo.eq_3]
  rw [puncTok_not_space c t hp, hp]
  simp only [Bool.false_eq_true, if_false]
  rfl

theorem tokenizeL_word_append (w rest : List Char) (hne : w ≠ [])
    (hall : ∀ c ∈ w, isWordChar c = true) (hb : noWordStart rest) :
    tokenizeL (w ++ rest) = match tokenizeL rest with
      | .ok ts => .ok (classifyWord w :: ts)
      | .error e => .error e := by
  cases w with
  | nil => exact absurd rfl hne
  | cons c cs =>
    have hc := hall c (by simp)
    have hcs : ∀ x ∈ cs, isWordChar x = true := fun x hx => hall x (by simp [hx])
    show tokenizeGo ((cs ++ rest).length + 1) (c :: (cs ++ rest)) = _
    rw [tokenizeGo.eq_3]
    rw [isWordChar_not_space c hc, isWordChar_not_punc c hc]
    simp only [Bool.false_eq_true, if_false, hc, if_true]
    rw [takeWhile_append_of_all cs rest hcs hb, dropWhile_append_of_all cs rest hcs hb]
    rw [tokenizeGo_irrel (cs ++ rest).length rest
      (by simp) (cs ++ rest).length rest.length (by simp) (le_refl _)]
    rfl

theorem identOK_spec (s : String) (h : identOK s = true) :
    s.data ≠ [] ∧ (∀ c ∈ s.data, isWordChar c = true)
      ∧ classifyWord s.data = Tok.ident s := by
  simp only [identOK, Bool.and_eq_true] at h
  obtain ⟨⟨h1, h2⟩, h3⟩ := h
  refine ⟨?_, fun c hc => List.all_eq_true.mp h2 c hc, ?_⟩
  · intro hc
    rw [hc] at h1
    exact absurd h1 (by decide)
  · simp only [classifyWord]
    cases hk : keywordTok (String.mk (s.data.map Char.toUpper)) with
    | none => rfl
    | some t =>
      rw [hk] at h3
      exact absurd h3 (by simp)

theorem keywordTok_wf (u : String) (t : Tok) (hk : keywordTok u = some t) : TokWF t := by
  unfold keywordTok at hk
  by_cases h1 : u = "SELECT"
  · rw [if_pos h1] at hk; cases hk; trivial
  rw [if_neg h1] at hk
  by_cases h2 : u = "FROM"
  · rw [if_pos h2] at hk; cases hk; trivial
  rw [if_neg h2] at hk
  by_cases h3 : u = "WHERE"
  · rw [if_pos h3] at hk; cases hk; trivial
  rw [if_neg h3] at hk
  by_cases h4 : u = "GROUP"
  · rw [if_pos h4] at hk; cases hk; trivial
  rw [if_neg h4] at hk
  by_cases h5 : u = "BY"
  · rw [if_pos h5] at hk; cases hk; trivial
  rw [if_neg h5] at hk
  by_cases h6 : u = "ORDER"
  · rw [if_pos h6] at hk; cases hk; trivial
  rw [if_neg h6] at hk
  by_cases h7 : u = "ASC"
  · rw [if_pos h7] at hk; cases hk; trivial
  rw [if_neg h7] at hk
  by_cases h8 : u = "DESC"
  · rw [if_pos h8] at hk; cases hk; trivial
  rw [if_neg h8] at hk
  by_cases h9 : u = "OPTIONAL"
  · rw [if_pos h9] at hk; cases hk; trivial
  rw [if_neg h9] at hk
  by_cases h10 : u = "REQUIRED"
  · rw [if_pos h10] at hk; cases hk; trivial
  rw [if_neg h10] at hk
  by_cases h11 : u = "LOOP"
  · rw [if_pos h11] at hk; cases hk; trivial
  rw [if_neg h11] at hk
  by_cases h12 : u = "OPT_BLOCK"
  · rw [if_pos h12] at hk; cases hk; trivial
  rw [if_neg h12] at hk
  exact absurd hk (by simp)

theorem tokenizeGo_wf (f : Nat) (l : List Char) :
    ∀ ts, tokenizeGo f l = .ok ts → ∀ t ∈ ts, TokWF t := by
  induction f, l using tokenizeGo.induct with
  | case1 f =>
    intro ts h t ht
    simp only [tokenizeGo] at h
    cases h
    simp at ht
  | case2 c cs =>
    intro ts h
    simp [tokenizeGo] at h
  | case3 fuel c cs hs ih =>
    intro ts h t ht
    rw [tokenizeGo.eq_3] at h
    simp only [hs, if_true] at h
    exact ih ts h t ht
  | case4 fuel c cs hs t0 hp ts0 hrec ih =>
    intro ts h t ht
    rw [tokenizeGo.eq_3] at h
    simp only [hs, Bool.false_eq_true, if_false, hp, hrec] at h
    cases h
    rcases List.mem_cons.mp ht with h1 | h1
    · subst h1
      unfold puncTok at hp
      split_ifs at hp <;> (cases hp; trivial)
    · exact ih ts0 hrec t h1
  | case5 fuel c cs hs t0 hp e herr ih =>
    intro ts h
    rw [tokenizeGo.eq_3] at h
    simp [hs, hp, herr] at h
  | case6 fuel c cs hs hp hw ts0 hrec ih =>
    intro ts h t ht
    rw [tokenizeGo.eq_3] at h
    simp only [hs, Bool.false_eq_true, if_false, hp, hw, if_true, hrec] at h
    cases h
    rcases List.mem_cons.mp ht with h1 | h1
    · subst h1
      simp only [classifyWord]
      cases hk : keywordTok (String.mk ((c :: cs.takeWhile isWordChar).map Char.toUpper)) with
      | some kt => exact keywordTok_wf _ kt hk
      | none =>
        show identOK (String.mk (c :: cs.takeWhile isWordChar)) = true
        simp only [identOK, Bool.and_eq_true]
        refine ⟨⟨by simp, ?_⟩, ?_⟩
        · rw [List.all_eq_true]
          intro x hx
          rcases List.mem_cons.mp hx with h2 | h2
          · subst h2; exact hw
          · exact List.mem_takeWhile_imp h2
        · rw [hk]
          rfl
    · exact ih ts0 hrec t h1
  | case7 fuel c cs hs hp hw e herr ih =>
    intro ts h
    rw [tokenizeGo.eq_3] at h
    simp [hs, hp, hw, herr] at h
  | case8 fuel c cs hs hp hw =>
    intro ts h
    rw [tokenizeGo.eq_3] at h
    simp [hs, hp, hw] at h

theorem tokenizeL_wf (l : List Char) (ts : List Tok)
    (h : tokenizeL l = .ok ts) : ∀ t ∈ ts, TokWF t :=
  tokenizeGo_wf l.length l ts h

/-! ### Tokenizing generated text (towards claim C1) -/

theorem noWordStart_cons (c : Char) (l : List Char) (h : isWordChar c = false) :
    noWordStart (c :: l) := h

theorem tokenizeL_group_render (kw : String) (kt : Tok) (hne : kw.data ≠ [])
    (hall : ∀ c ∈ kw.data, isWordChar c = true) (hcw : classifyWord kw.data = kt)
    (pre : List Char) (hpre : pre = kw.data ++ [' ', '('])
    (body : List Char) (bodyToks : List Tok)
    (hbody : ∀ r rts, noWordStart r → tokenizeL r = .ok rts →
        tokenizeL (body ++ r) = .ok (bodyToks ++ rts))
    (rest : List Char) (ts : List Tok) (_hb : noWordStart rest)
    (hrest : tokenizeL rest = .ok ts) :
    tokenizeL ((pre ++ (body ++ [')'])) ++ rest)
      = .ok ((kt :: Tok.lparen :: (bodyToks ++ [Tok.rparen])) ++ ts) := by
  subst hpre
  have hshape : ((kw.data ++ [' ', '(']) ++ (body ++ [')'])) ++ rest
      = kw.data ++ (' ' :: '(' :: (body ++ (')' :: rest))) := by
    simp [List.append_assoc]
  rw [hshape]
  have h1 : tokenizeL (')' :: rest) = .ok (Tok.rparen :: ts) := by
    rw [tokenizeL_cons_punc ')' Tok.rparen (by decide), hrest]
  have h2 : tokenizeL (body ++ ')' :: rest) = .ok (bodyToks ++ Tok.rparen :: ts) :=
    hbody (')' :: rest) (Tok.rparen :: ts) (noWordStart_cons _ _ (by decide)) h1
  have h3 : tokenizeL ('(' :: (body ++ ')' :: rest))
      = .ok (Tok.lparen :: (bodyToks ++ Tok.rparen :: ts)) := by
    rw [tokenizeL_cons_punc '(' Tok.lparen (by decide), h2]
  have h4 : tokenizeL (' ' :: '(' :: (body ++ ')' :: rest))
      = .ok (Tok.lparen :: (bodyToks ++ Tok.rparen :: ts)) := by
    rw [tokenizeL_cons_space _ _ (by decide)]
    exact h3
  rw [tokenizeL_word_append kw.data _ hne hall (noWordStart_cons _ _ (by decide)), h4, hcw]
  simp [List.append_assoc]

theorem tokenizeL_block_render (n : String) (hn : identOK n = true)
    (body : List Char) (bodyToks : List Tok)
    (hbody : ∀ r rts, noWordStart r → tokenizeL r = .ok rts →
        tokenizeL (body ++ r) = .ok (bodyToks ++ rts))
    (rest : List Char) (ts : List Tok) (_hb : noWordStart rest)
    (hrest : tokenizeL rest = .ok ts) :
    tokenizeL (("OPT_BLOCK ".data ++ (n.data ++ '[' :: (body ++ [']']))) ++ rest)
      = .ok ((Tok.optBlockK :: Tok.ident n :: Tok.lbracket :: (bodyToks ++ [Tok.rbracket])) ++ ts) := by
  obtain ⟨hn1, hn2, hn3⟩ := identOK_spec n hn
  have hshape : ("OPT_BLOCK ".data ++ (n.data ++ '[' :: (body ++ [']']))) ++ rest
      = "OPT_BLOCK".data ++ (' ' :: (n.data ++ ('[' :: (body ++ (']' :: rest))))) := by
    rw [show "OPT_BLOCK ".data = "OPT_BLOCK".data ++ [' '] from rfl]
    simp [List.append_assoc]
  rw [hshape]
  have h1 : tokenizeL (']' :: rest) = .ok (Tok.rbracket :: ts) := by
    rw [tokenizeL_cons_punc ']' Tok.rbracket (by decide), hrest]
  have h2 : tokenizeL (body ++ ']' :: rest) = .ok (bodyToks ++ Tok.rbracket :: ts) :=
    hbody (']' :: rest) (Tok.rbracket :: ts) (noWordStart_cons _ _ (by decide)) h1
  have h3 : tokenizeL ('[' :: (body ++ ']' :: rest))
      = .ok (Tok.lbracket :: (bodyToks ++ Tok.rbracket :: ts)) := by
    rw [tokenizeL_cons_punc '[' Tok.lbracket (by decide), h2]
  have h4 : tokenizeL (n.data ++ ('[' :: (body ++ ']' :: rest)))
      = .ok (Tok.ident n :: Tok.lbracket :: (bodyToks ++ Tok.rbracket :: ts)) := by
    rw [tokenizeL_word_append n.data _ hn1 hn2 (noWordStart_cons _ _ (by decide)), h3, hn3]
  have h5 : tokenizeL (' ' :: (n.data ++ ('[' :: (body ++ ']' :: rest))))
      = .ok (Tok.ident n :: Tok.lbracket :: (bodyToks ++ Tok.rbracket :: ts)) := by
    rw [tokenizeL_cons_space _ _ (by decide)]
    exact h4
  rw [tokenizeL_word_append "OPT_BLOCK".data _ (by decide) (by decide)
    (noWordStart_cons _ _ (by decide)), h5]
  rw [show classifyWord "OPT_BLOCK".data = Tok.optBlockK from by decide]
  simp [List.append_assoc]

mutual
theorem tokenizeL_genL (e : Expr) (h : namesOK e = true) (rest : List Char) (ts : List Tok)
    (hb : noWordStart rest) (hrest : tokenizeL rest = .ok ts) :
    tokenizeL (genL e ++ rest) = .ok (genToksE e ++ ts) := by
  cases e with
  | column n =>
    obtain ⟨h1, h2, h3⟩ := identOK_spec n h
    show tokenizeL (n.data ++ rest) = .ok ([Tok.ident n] ++ ts)
    rw [tokenizeL_word_append n.data rest h1 h2 hb, hrest, h3]
    rfl
  | eq a b =>
    simp only [namesOK, Bool.and_eq_true] at h
    have hby : tokenizeL (genL b ++ rest) = .ok (genToksE b ++ ts) :=
      tokenizeL_genL b h.2 rest ts hb hrest
    have h1 : tokenizeL (' ' :: (genL b ++ rest)) = .ok (genToksE b ++ ts) := by
      rw [tokenizeL_cons_space _ _ (by decide)]
      exact hby
    have h2 : tokenizeL ('=' :: ' ' :: (genL b ++ rest))
        = .ok (Tok.eqT :: (genToksE b ++ ts)) := by
      rw [tokenizeL_cons_punc '=' Tok.eqT (by decide), h1]
    have h3 : tokenizeL (' ' :: '=' :: ' ' :: (genL b ++ rest))
        = .ok (Tok.eqT :: (genToksE b ++ ts)) := by
      rw [tokenizeL_cons_space _ _ (by decide)]
      exact h2
    have h4 := tokenizeL_genL a h.1 (' ' :: '=' :: ' ' :: (genL b ++ rest))
      (Tok.eqT :: (genToksE b ++ ts)) (noWordStart_cons _ _ (by decide)) h3
    calc tokenizeL (genL (.eq a b) ++ rest)
        = tokenizeL (genL a ++ (' ' :: '=' :: ' ' :: (genL b ++ rest))) := by
          simp [genL, List.append_assoc]
      _ = .ok (genToksE a ++ (Tok.eqT :: (genToksE b ++ ts))) := h4
      _ = .ok (genToksE (.eq a b) ++ ts) := by simp [genToksE, List.append_assoc]
  | ordered e1 d =>
    simp only [namesOK] at h
    cases d with
    | none =>
      have h4 := tokenizeL_genL e1 h rest ts hb hrest
      calc tokenizeL (genL (.ordered e1 none) ++ rest)
          = tokenizeL (genL e1 ++ rest) := by simp [genL]
        _ = .ok (genToksE e1 ++ ts) := h4
        _ = .ok (genToksE (.ordered e1 none) ++ ts) := by simp [genToksE]
    | some dir =>
      cases dir with
      | true =>
        have h1 : tokenizeL ("DESC".data ++ rest) = .ok (Tok.desc :: ts) := by
          rw [tokenizeL_word_append "DESC".data rest (by decide) (by decide) hb, hrest]
          rw [show classifyWord "DESC".data = Tok.desc from by decide]
        have h2 : tokenizeL (' ' :: ("DESC".data ++ rest)) = .ok (Tok.desc :: ts) := by
          rw [tokenizeL_cons_space _ _ (by decide)]
          exact h1
        have h4 := tokenizeL_genL e1 h (' ' :: ("DESC".data ++ rest)) (Tok.desc :: ts)
          (noWordStart_cons _ _ (by decide)) h2
        calc tokenizeL (genL (.ordered e1 (some true)) ++ rest)
            = tokenizeL (genL e1 ++ (' ' :: ("DESC".data ++ rest))) := by
              simp [genL, List.append_assoc]
          _ = .ok (genToksE e1 ++ (Tok.desc :: ts)) := h4
          _ = .ok (genToksE (.ordered e1 (some true)) ++ ts) := by
              simp [genToksE, List.append_assoc]
      | false =>
        have h1 : tokenizeL ("ASC".data ++ rest) = .ok (Tok.asc :: ts) := by
          rw [tokenizeL_word_append "ASC".data rest (by decide) (by decide) hb, hrest]
          rw [show classifyWord "ASC".data = Tok.asc from by decide]
        have h2 : tokenizeL (' ' :: ("ASC".data ++ rest)) = .ok (Tok.asc :: ts) := by
          rw [tokenizeL_cons_space _ _ (by decide)]
          exact h1
        have h4 := tokenizeL_genL e1 h (' ' :: ("ASC".data ++ rest)) (Tok.asc :: ts)
          (noWordStart_cons _ _ (by decide)) h2
        calc tokenizeL (genL (.ordered e1 (some false)) ++ rest)
            = tokenizeL (genL e1 ++ (' ' :: ("ASC".data ++ rest))) := by
              simp [genL, List.append_assoc]
          _ = .ok (genToksE e1 ++ (Tok.asc :: ts)) := h4
          _ = .ok (genToksE (.ordered e1 (some false)) ++ ts) := by
              simp [genToksE, List.append_assoc]
  | optionalFunc args =>
    exact tokenizeL_group_render "OPTIONAL" Tok.optionalK (by decide) (by decide) (by decide)
      "OPTIONAL (".data (by decide) (genLList args) (genToksList args)
      (fun r rts hr hrt => tokenizeL_genLList args h r rts hr hrt) rest ts hb hrest
  | requiredFunc args =>
    exact tokenizeL_group_render "REQUIRED" Tok.requiredK (by decide) (by decide) (by decide)
      "REQUIRED (".data (by decide) (genLList args) (genToksList args)
      (fun r rts hr hrt => tokenizeL_genLList args h r rts hr hrt) rest ts hb hrest
  | loopFunc args =>
    exact tokenizeL_group_render "LOOP" Tok.loopK (by decide) (by decide) (by decide)
      "LOOP (".data (by decide) (genLList args) (genToksList args)
      (fun r rts hr hrt => tokenizeL_genLList args h r rts hr hrt) rest ts hb hrest
  | optBlock n bs =>
    simp only [namesOK, Bool.and_eq_true] at h
    exact tokenizeL_block_render n h.1 (genLList bs) (genToksList bs)
      (fun r rts hr hrt => tokenizeL_genLList bs h.2 r rts hr hrt) rest ts hb hrest

theorem tokenizeL_genLList (es : ExprList) (h : namesOKList es = true) (rest : List Char)
    (ts : List Tok) (hb : noWordStart rest) (hrest : tokenizeL rest = .ok ts) :
    tokenizeL (genLList es ++ rest) = .ok (genToksList es ++ ts) := by
  cases es with
  | nil =>
    show tokenizeL ([] ++ rest) = .ok ([] ++ ts)
    simpa using hrest
  | cons e tl =>
    cases tl with
    | nil =>
      simp only [namesOKList, Bool.and_eq_true] at h
      exact tokenizeL_genL e h.1 rest ts hb hrest
    | cons e2 tl2 =>
      simp only [namesOKList, Bool.and_eq_true] at h
      have hTl : tokenizeL (genLList (.cons e2 tl2) ++ rest)
          = .ok (genToksList (.cons e2 tl2) ++ ts) :=
        tokenizeL_genLList (.cons e2 tl2)
          (by simp [namesOKList, h.2.1, h.2.2]) rest ts hb hrest
      have h1 : tokenizeL (' ' :: (genLList (.cons e2 tl2) ++ rest))
          = .ok (genToksList (.cons e2 tl2) ++ ts) := by
        rw [tokenizeL_cons_space _ _ (by decide)]
        exact hTl
      have h2 : tokenizeL (',' :: ' ' :: (genLList (.cons e2 tl2) ++ rest))
          = .ok (Tok.comma :: (genToksList (.cons e2 tl2) ++ ts)) := by
        rw [tokenizeL_cons_punc ',' Tok.comma (by decide), h1]
      have h4 := tokenizeL_genL e h.1 (',' :: ' ' :: (genLList (.cons e2 tl2) ++ rest))
        (Tok.comma :: (genToksList (.cons e2 tl2) ++ ts))
        (noWordStart_cons _ _ (by decide)) h2
      calc tokenizeL (genLList (.cons e (.cons e2 tl2)) ++ rest)
          = tokenizeL (genL e ++ (',' :: ' ' :: (genLList (.cons e2 tl2) ++ rest))) := by
            simp [genLList, List.append_assoc]
        _ = .ok (genToksE e ++ (Tok.comma :: (genToksList (.cons e2 tl2) ++ ts))) := h4
        _ = .ok (genToksList (.cons e (.cons e2 tl2)) ++ ts) := by
            simp [genToksList, List.append_assoc]
end

theorem noWordStart_orderChunkL (o : Option ExprList) : noWordStart (orderChunkL o) := by
  cases o with
  | none => trivial
  | some es => exact noWordStart_cons _ _ (by decide)

theorem noWordStart_groupOrder (g o : Option ExprList) :
    noWordStart (groupChunkL g ++ orderChunkL o) := by
  cases g with
  | none => exact noWordStart_orderChunkL o
  | some es => exact noWordStart_cons _ _ (by decide)

theorem noWordStart_whereGroupOrder (w : Option Expr) (g o : Option ExprList) :
    noWordStart (whereChunkL w ++ (groupChunkL g ++ orderChunkL o)) := by
  cases w with
  | none => exact noWordStart_groupOrder g o
  | some e => exact noWordStart_cons _ _ (by decide)

theorem noWordStart_clauseTail (tbl : Option String) (w : Option Expr) (g o : Option ExprList) :
    noWordStart (fromChunkL tbl ++ (whereChunkL w ++ (groupChunkL g ++ orderChunkL o))) := by
  cases tbl with
  | none => exact noWordStart_whereGroupOrder w g o
  | some n => exact noWordStart_cons _ _ (by decide)

theorem tokenizeL_fromChunk (tbl : Option String)
    (h : tblNamesOK tbl = true)
    (rest : List Char) (ts : List Tok) (hb : noWordStart rest)
    (hrest : tokenizeL rest = .ok ts) :
    tokenizeL (fromChunkL tbl ++ rest) = .ok (fromChunkToks tbl ++ ts) := by
  cases tbl with
  | none =>
    show tokenizeL ([] ++ rest) = .ok ([] ++ ts)
    simpa using hrest
  | some n =>
    obtain ⟨h1, h2, h3⟩ := identOK_spec n h
    have hn : tokenizeL (n.data ++ rest) = .ok (Tok.ident n :: ts) := by
      rw [tokenizeL_word_append n.data rest h1 h2 hb, hrest, h3]
    have hsp : tokenizeL (' ' :: (n.data ++ rest)) = .ok (Tok.ident n :: ts) := by
      rw [tokenizeL_cons_space _ _ (by decide)]
      exact hn
    have hw : tokenizeL ("FROM".data ++ (' ' :: (n.data ++ rest)))
        = .ok (Tok.fromKw :: Tok.ident n :: ts) := by
      rw [tokenizeL_word_append "FROM".data _ (by decide) (by decide)
        (noWordStart_cons _ _ (by decide)), hsp]
      rw [show classifyWord "FROM".data = Tok.fromKw from by decide]
    calc tokenizeL (fromChunkL (some n) ++ rest)
        = tokenizeL (' ' :: ("FROM".data ++ (' ' :: (n.data ++ rest)))) := by
          show tokenizeL ((" FROM ".data ++ n.data) ++ rest) = _
          rw [show " FROM ".data = (' ' :: "FROM".data) ++ [' '] from rfl]
          simp [List.append_assoc]
      _ = .ok (Tok.fromKw :: Tok.ident n :: ts) := by
          rw [tokenizeL_cons_space _ _ (by decide)]
          exact hw
      _ = .ok (fromChunkToks (some n) ++ ts) := rfl

theorem tokenizeL_whereChunk (w : Option Expr)
    (h : optExprNamesOK w = true)
    (rest : List Char) (ts : List Tok) (hb : noWordStart rest)
    (hrest : tokenizeL rest = .ok ts) :
    tokenizeL (whereChunkL w ++ rest) = .ok (whereChunkToks w ++ ts) := by
  cases w with
  | none =>
    show tokenizeL ([] ++ rest) = .ok ([] ++ ts)
    simpa using hrest
  | some e =>
    have he : tokenizeL (genL e ++ rest) = .ok (genToksE e ++ ts) :=
      tokenizeL_genL e h rest ts hb hrest
    have hsp : tokenizeL (' ' :: (genL e ++ rest)) = .ok (genToksE e ++ ts) := by
      rw [tokenizeL_cons_space _ _ (by decide)]
      exact he
    have hw : tokenizeL ("WHERE".data ++ (' ' :: (genL e ++ rest)))
        = .ok (Tok.whereKw :: (genToksE e ++ ts)) := by
      rw [tokenizeL_word_append "WHERE".data _ (by decide) (by decide)
        (noWordStart_cons _ _ (by decide)), hsp]
      rw [show classifyWord "WHERE".data = Tok.whereKw from by decide]
    calc tokenizeL (whereChunkL (some e) ++ rest)
        = tokenizeL (' ' :: ("WHERE".data ++ (' ' :: (genL e ++ rest)))) := by
          show tokenizeL ((" WHERE ".data ++ genL e) ++ rest) = _
          rw [show " WHERE ".data = (' ' :: "WHERE".data) ++ [' '] from rfl]
          simp [List.append_assoc]
      _ = .ok (Tok.whereKw :: (genToksE e ++ ts)) := by
          rw [tokenizeL_cons_space _ _ (by decide)]
          exact hw
      _ = .ok (whereChunkToks (some e) ++ ts) := rfl

theorem tokenizeL_groupChunk (g : Option ExprList)
    (h : optListNamesOK g = true)
    (rest : List Char) (ts : List Tok) (hb : noWordStart rest)
    (hrest : tokenizeL rest = .ok ts) :
    tokenizeL (groupChunkL g ++ rest) = .ok (groupChunkToks g ++ ts) := by
  cases g with
  | none =>
    show tokenizeL ([] ++ rest) = .ok ([] ++ ts)
    simpa using hrest
  | some es =>
    have he : tokenizeL (genLList es ++ rest) = .ok (genToksList es ++ ts) :=
      tokenizeL_genLList es h rest ts hb hrest
    have hsp1 : tokenizeL (' ' :: (genLList es ++ rest)) = .ok (genToksList es ++ ts) := by
      rw [tokenizeL_cons_space _ _ (by decide)]
      exact he
    have hby : tokenizeL ("BY".data ++ (' ' :: (genLList es ++ rest)))
        = .ok (Tok.byKw :: (genToksList es ++ ts)) := by
      rw [tokenizeL_word_append "BY".data _ (by decide) (by decide)
        (noWordStart_cons _ _ (by decide)), hsp1]
      rw [show classifyWord "BY".data = Tok.byKw from by decide]
    have hsp2 : tokenizeL (' ' :: ("BY".data ++ (' ' :: (genLList es ++ rest))))
        = .ok (Tok.byKw :: (genToksList es ++ ts)) := by
      rw [tokenizeL_cons_space _ _ (by decide)]
      exact hby
    have hgr : tokenizeL ("GROUP".data ++ (' ' :: ("BY".data ++ (' ' :: (genLList es ++ rest)))))
        = .ok (Tok.groupKw :: Tok.byKw :: (genToksList es ++ ts)) := by
      rw [tokenizeL_word_append "GROUP".data _ (by decide) (by decide)
        (noWordStart_cons _ _ (by decide)), hsp2]
      rw [show classifyWord "GROUP".data = Tok.groupKw from by decide]
    calc tokenizeL (groupChunkL (some es) ++ rest)
        = tokenizeL (' ' :: ("GROUP".data ++ (' ' :: ("BY".data ++ (' ' :: (genLList es ++ rest)))))) := by
          show tokenizeL ((" GROUP BY ".data ++ genLList es) ++ rest) = _
          rw [show " GROUP BY ".data
              = (' ' :: "GROUP".data) ++ ((' ' :: "BY".data) ++ [' ']) from rfl]
          simp [List.append_assoc]
      _ = .ok (Tok.groupKw :: Tok.byKw :: (genToksList es ++ ts)) := by
          rw [tokenizeL_cons_space _ _ (by decide)]
          exact hgr
      _ = .ok (groupChunkToks (some es) ++ ts) := rfl

theorem tokenizeL_orderChunk (o : Option ExprList)
    (h : optListNamesOK o = true)
    (rest : List Char) (ts : List Tok) (hb : noWordStart rest)
    (hrest : tokenizeL rest = .ok ts) :
    tokenizeL (orderChunkL o ++ rest) = .ok (orderChunkToks o ++ ts) := by
  cases o with
  | none =>
    show tokenizeL ([] ++ rest) = .ok ([] ++ ts)
    simpa using hrest
  | some es =>
    have he : tokenizeL (genLList es ++ rest) = .ok (genToksList es ++ ts) :=
      tokenizeL_genLList es h rest ts hb hrest
    have hsp1 : tokenizeL (' ' :: (genLList es ++ rest)) = .ok (genToksList es ++ ts) := by
      rw [tokenizeL_cons_space _ _ (by decide)]
      exact he
    have hby : tokenizeL ("BY".data ++ (' ' :: (genLList es ++ rest)))
        = .ok (Tok.byKw :: (genToksList es ++ ts)) := by
      rw [tokenizeL_word_append "BY".data _ (by decide) (by decide)
        (noWordStart_cons _ _ (by decide)), hsp1]
      rw [show classifyWord "BY".data = Tok.byKw from by decide]
    have hsp2 : tokenizeL (' ' :: ("BY".data ++ (' ' :: (genLList es ++ rest))))
        = .ok (Tok.byKw :: (genToksList es ++ ts)) := by
      rw [tokenizeL_cons_space _ _ (by decide)]
      exact hby
    have hgr : tokenizeL ("ORDER".data ++ (' ' :: ("BY".data ++ (' ' :: (genLList es ++ rest)))))
        = .ok (Tok.orderKw :: Tok.byKw :: (genToksList es ++ ts)) := by
      rw [tokenizeL_word_append "ORDER".data _ (by decide) (by decide)
        (noWordStart_cons _ _ (by decide)), hsp2]
      rw [show classifyWord "ORDER".data = Tok.orderKw from by decide]
    calc tokenizeL (orderChunkL (some es) ++ rest)
        = tokenizeL (' ' :: ("ORDER".data ++ (' ' :: ("BY".data ++ (' ' :: (genLList es ++ rest)))))) := by
          show tokenizeL ((" ORDER BY ".data ++ genLList es) ++ rest) = _
          rw [show " ORDER BY ".data
              = (' ' :: "ORDER".data) ++ ((' ' :: "BY".data) ++ [' ']) from rfl]
          simp [List.append_assoc]
      _ = .ok (Tok.orderKw :: Tok.byKw :: (genToksList es ++ ts)) := by
          rw [tokenizeL_cons_space _ _ (by decide)]
          exact hgr
      _ = .ok (orderChunkToks (some es) ++ ts) := rfl

theorem tokenizeL_genLStmt (s : Stmt) (h : namesOKStmt s = true) :
    tokenizeL (genLStmt s) = .ok (genToksStmt s) := by
  cases s with
  | exprStmt e =>
    have he := tokenizeL_genL e h [] [] trivial rfl
    show tokenizeL (genL e) = .ok (genToksE e)
    simpa using he
  | selectS projs tbl w g o =>
    simp only [namesOKStmt, Bool.and_eq_true] at h
    obtain ⟨⟨⟨⟨hp, ht⟩, hw⟩, hg⟩, ho⟩ := h
    have s1 : tokenizeL (orderChunkL o) = .ok (orderChunkToks o) := by
      have := tokenizeL_orderChunk o ho [] [] trivial rfl
      simpa using this
    have s2 : tokenizeL (groupChunkL g ++ orderChunkL o)
        = .ok (groupChunkToks g ++ orderChunkToks o) :=
      tokenizeL_groupChunk g hg _ _ (noWordStart_orderChunkL o) s1
    have s3 : tokenizeL (whereChunkL w ++ (groupChunkL g ++ orderChunkL o))
        = .ok (whereChunkToks w ++ (groupChunkToks g ++ orderChunkToks o)) :=
      tokenizeL_whereChunk w hw _ _ (noWordStart_groupOrder g o) s2
    have s4 : tokenizeL (fromChunkL tbl ++ (whereChunkL w ++ (groupChunkL g ++ orderChunkL o)))
        = .ok (fromChunkToks tbl ++ (whereChunkToks w ++ (groupChunkToks g ++ orderChunkToks o))) :=
      tokenizeL_fromChunk tbl ht _ _ (noWordStart_whereGroupOrder w g o) s3
    have s5 : tokenizeL (genLList projs
          ++ (fromChunkL tbl ++ (whereChunkL w ++ (groupChunkL g ++ orderChunkL o))))
        = .ok (genToksList projs
          ++ (fromChunkToks tbl ++ (whereChunkToks w ++ (groupChunkToks g ++ orderChunkToks o)))) :=
      tokenizeL_genLList projs hp _ _ (noWordStart_clauseTail tbl w g o) s4
    have s6 : tokenizeL (' ' :: (genLList projs
          ++ (fromChunkL tbl ++ (whereChunkL w ++ (groupChunkL g ++ orderChunkL o)))))
        = .ok (genToksList projs
          ++ (fromChunkToks tbl ++ (whereChunkToks w ++ (groupChunkToks g ++ orderChunkToks o)))) := by
      rw [tokenizeL_cons_space _ _ (by decide)]
      exact s5
    have s7 : tokenizeL ("SELECT".data ++ (' ' :: (genLList projs
          ++ (fromChunkL tbl ++ (whereChunkL w ++ (groupChunkL g ++ orderChunkL o))))))
        = .ok (Tok.select :: (genToksList projs
          ++ (fromChunkToks tbl ++ (whereChunkToks w ++ (groupChunkToks g ++ orderChunkToks o))))) := by
      rw [tokenizeL_word_append "SELECT".data _ (by decide) (by decide)
        (noWordStart_cons _ _ (by decide)), s6]
      rw [show classifyWord "SELECT".data = Tok.select from by decide]
    calc tokenizeL (genLStmt (.selectS projs tbl w g o))
        = tokenizeL ("SELECT".data ++ (' ' :: (genLList projs
            ++ (fromChunkL tbl ++ (whereChunkL w ++ (groupChunkL g ++ orderChunkL o)))))) := by
          show tokenizeL (("SELECT ".data ++ genLList projs)
              ++ (fromChunkL tbl ++ (whereChunkL w ++ (groupChunkL g ++ orderChunkL o)))) = _
          rw [show "SELECT ".data = "SELECT".data ++ [' '] from rfl]
          simp [List.append_assoc]
      _ = .ok (Tok.select :: (genToksList projs
            ++ (fromChunkToks tbl ++ (whereChunkToks w ++ (groupChunkToks g ++ orderChunkToks o))))) := s7
      _ = .ok (genToksStmt (.selectS projs tbl w g o)) := by
          simp [genToksStmt, List.append_assoc]

/-! ### Parser round-trip helper lemmas (towards claim C1) -/

theorem matchTok_cons_ne (t x : Tok) (l : List Tok) (h : x ≠ t) :
    matchTok t (x :: l) = none := by
  simp [matchTok, h]

theorem matchTok_some_inv (t : Tok) (l l2 : List Tok) (h : matchTok t l = some l2) :
    l = t :: l2 := by
  cases l with
  | nil => simp [matchTok] at h
  | cons x xs =>
    simp only [matchTok] at h
    by_cases hx : x = t
    · subst hx
      simp at h
      rw [h]
    · rw [if_neg hx] at h
      exact absurd h (by simp)

theorem genToksE_build (kind : GroupKind) (args : ExprList) :
    genToksE (kind.build args)
      = kindTok kind :: Tok.lparen :: (genToksList args ++ [Tok.rparen]) := by
  cases kind <;> rfl

theorem namesOK_build (kind : GroupKind) (args : ExprList) :
    namesOK (kind.build args) = namesOKList args := by
  cases kind <;> rfl

theorem parseAtom_kw (f : Nat) (kind : GroupKind) (l : List Tok)
    (st enc : OptBlockInClause) :
    parseAtom (f + 1) (kindTok kind :: l) st enc = parseOptFunc f kind l st enc := by
  cases kind <;> rfl

theorem isStartTok_props (t : Tok) (h : isStartTok t = true) :
    t ≠ Tok.rparen ∧ t ≠ Tok.rbracket ∧ t ≠ Tok.select := by
  cases t <;> first
    | exact absurd h (by decide)
    | exact ⟨by simp, by simp, by simp⟩

mutual
theorem genToksE_start (e : Expr) :
    ∃ t l, genToksE e = t :: l ∧ isStartTok t = true := by
  cases e with
  | column n => exact ⟨Tok.ident n, [], rfl, rfl⟩
  | eq a b =>
    obtain ⟨t, l, hgl, hst⟩ := genToksE_start a
    exact ⟨t, l ++ Tok.eqT :: genToksE b, by simp [genToksE, hgl], hst⟩
  | ordered e1 d =>
    obtain ⟨t, l, hgl, hst⟩ := genToksE_start e1
    exact ⟨t, l ++ (match d with
      | none => []
      | some true => [Tok.desc]
      | some false => [Tok.asc]), by simp [genToksE, hgl], hst⟩
  | optionalFunc args =>
    exact ⟨Tok.optionalK, _, rfl, rfl⟩
  | requiredFunc args =>
    exact ⟨Tok.requiredK, _, rfl, rfl⟩
  | loopFunc args =>
    exact ⟨Tok.loopK, _, rfl, rfl⟩
  | optBlock n bs =>
    exact ⟨Tok.optBlockK, _, rfl, rfl⟩
end

theorem genToksList_start (e : Expr) (tl : ExprList) :
    ∃ t l, genToksList (.cons e tl) = t :: l ∧ isStartTok t = true := by
  obtain ⟨t, l, hgl, hst⟩ := genToksE_start e
  cases tl with
  | nil => exact ⟨t, l, hgl, hst⟩
  | cons e2 tl2 =>
    exact ⟨t, l ++ Tok.comma :: genToksList (.cons e2 tl2), by simp [genToksList, hgl], hst⟩

theorem headNotIn_mono (bad bad' : List Tok) (k : List Tok)
    (hsub : ∀ t ∈ bad', t ∈ bad) (h : headNotIn bad k) : headNotIn bad' k := by
  cases k with
  | nil => trivial
  | cons x xs =>
    simp only [headNotIn] at h ⊢
    exact fun hmem => h (hsub x hmem)

theorem parseCsvExpr_shape (f : Nat) (toks : List Tok) (st enc : OptBlockInClause)
    (es : ExprList) (rest : List Tok) (st2 : OptBlockInClause)
    (h : parseCsvExpr f toks st enc = .ok (es, rest, st2)) :
    ∃ e tl, es = ExprList.cons e tl := by
  cases f with
  | zero => simp [parseCsvExpr] at h
  | succ f =>
    simp only [parseCsvExpr] at h
    split at h
    · exact absurd h (by simp)
    · split at h
      · split at h
        · exact absurd h (by simp)
        · simp only [Except.ok.injEq, Prod.mk.injEq] at h
          exact ⟨_, _, h.1.symm⟩
      · simp only [Except.ok.injEq, Prod.mk.injEq] at h
        exact ⟨_, _, h.1.symm⟩

theorem parseCsvOrdered_shape (f : Nat) (toks : List Tok) (st enc : OptBlockInClause)
    (es : ExprList) (rest : List Tok) (st2 : OptBlockInClause)
    (h : parseCsvOrdered f toks st enc = .ok (es, rest, st2)) :
    ∃ e tl, es = ExprList.cons e tl := by
  cases f with
  | zero => simp [parseCsvOrdered] at h
  | succ f =>
    simp only [parseCsvOrdered] at h
    split at h
    · exact absurd h (by simp)
    · split at h
      · split at h
        · exact absurd h (by simp)
        · simp only [Except.ok.injEq, Prod.mk.injEq] at h
          exact ⟨_, _, h.1.symm⟩
      · simp only [Except.ok.injEq, Prod.mk.injEq] at h
        exact ⟨_, _, h.1.symm⟩

theorem rtAtom_zero : RTatomP 0 := by
  intro toks st enc e rest st2 h
  simp [parseAtom] at h

theorem rtExpr_zero : RTexprP 0 := by
  intro toks st enc e rest st2 h
  simp [parseExpr] at h

theorem rtOrd_zero : RTordP 0 := by
  intro toks st enc e rest st2 h
  simp [parseOrdered] at h

theorem rtCsvE_zero : RTcsvEP 0 := by
  intro toks st enc es rest st2 h
  simp [parseCsvExpr] at h

theorem rtCsvO_zero : RTcsvOP 0 := by
  intro toks st enc es rest st2 h
  simp [parseCsvOrdered] at h

theorem rtFunc_zero : RTfuncP 0 := by
  intro kind toks st enc e rest st2 h
  simp [parseOptFunc] at h

theorem rtBlock_zero : RTblockP 0 := by
  intro toks st enc e rest st2 h
  simp [parseOptBlock] at h

theorem rtExpr_succ (f : Nat) (ihA : RTatomP f) : RTexprP (f + 1) := by
  intro toks st enc e rest st2 h
  simp only [parseExpr] at h
  split at h
  · exact absurd h (by simp)
  case _ a rest1 st1 heq =>
    obtain ⟨hsuf1, hcnt1, hwf1, hrep1⟩ := ihA toks st enc a rest1 st1 heq
    split at h
    case _ rest2 hm =>
      split at h
      · exact absurd h (by simp)
      case _ b rest3 st3 heq2 =>
        simp only [Except.ok.injEq, Prod.mk.injEq] at h
        obtain ⟨he, hr, hs⟩ := h
        subst he hr hs
        obtain ⟨hsuf2, hcnt2, hwf2, hrep2⟩ := ihA rest2 st1 enc b rest3 st3 heq2
        have hr1 : rest1 = Tok.eqT :: rest2 := matchTok_some_inv _ _ _ hm
        subst hr1
        refine ⟨?_, ?_, ?_, ?_⟩
        · exact hsuf2.trans ((List.suffix_cons Tok.eqT rest2).trans hsuf1)
        · simp only [genToksE, List.length_append, List.length_cons] at hcnt1 ⊢
          omega
        · intro hWF
          have hWF2 : ∀ t ∈ rest2, TokWF t := fun t ht =>
            hWF t (hsuf1.subset (List.mem_cons_of_mem _ ht))
          simp only [namesOK, Bool.and_eq_true]
          exact ⟨hwf1 hWF, hwf2 hWF2⟩
        · intro k _
          have hshape : genToksE (Expr.eq a b) ++ k
              = genToksE a ++ (Tok.eqT :: (genToksE b ++ k)) := by
            simp [genToksE, List.append_assoc]
          rw [hshape]
          simp only [parseExpr, hrep1 (Tok.eqT :: (genToksE b ++ k)), matchTok_cons_self,
            hrep2 k]
    case _ hm =>
      simp only [Except.ok.injEq, Prod.mk.injEq] at h
      obtain ⟨he, hr, hs⟩ := h
      subst he hr hs
      refine ⟨hsuf1, hcnt1, hwf1, ?_⟩
      intro k hk
      simp only [parseExpr, hrep1 k,
        matchTok_none_of_headNotIn Tok.eqT [Tok.eqT] k (by simp) hk]

theorem rtOrd_succ (f : Nat) (ihE : RTexprP f) : RTordP (f + 1) := by
  intro toks st enc e rest st2 h
  simp only [parseOrdered] at h
  split at h
  · exact absurd h (by simp)
  case _ e1 rest1 st1 heq =>
    obtain ⟨hsuf1, hcnt1, hwf1, hrep1⟩ := ihE toks st enc e1 rest1 st1 heq
    split at h
    case _ rest2 hm =>
      simp only [Except.ok.injEq, Prod.mk.injEq] at h
      obtain ⟨he, hr, hs⟩ := h
      subst he hr hs
      have hr1 : rest1 = Tok.asc :: rest2 := matchTok_some_inv _ _ _ hm
      subst hr1
      refine ⟨?_, ?_, ?_, ?_⟩
      · exact (List.suffix_cons Tok.asc rest2).trans hsuf1
      · simp only [genToksE, List.length_append, List.length_cons, List.length_nil] at hcnt1 ⊢
        omega
      · intro hWF
        exact hwf1 hWF
      · intro k _
        have hshape : genToksE (Expr.ordered e1 (some false)) ++ k
            = genToksE e1 ++ (Tok.asc :: k) := by
          simp [genToksE]
        rw [hshape]
        simp only [parseOrdered,
          hrep1 (Tok.asc :: k) (by simp [headNotIn]), matchTok_cons_self]
    case _ hm1 =>
      split at h
      case _ rest2 hm2 =>
        simp only [Except.ok.injEq, Prod.mk.injEq] at h
        obtain ⟨he, hr, hs⟩ := h
        subst he hr hs
        have hr1 : rest1 = Tok.desc :: rest2 := matchTok_some_inv _ _ _ hm2
        subst hr1
        refine ⟨?_, ?_, ?_, ?_⟩
        · exact (List.suffix_cons Tok.desc rest2).trans hsuf1
        · simp only [genToksE, List.length_append, List.length_cons, List.length_nil] at hcnt1 ⊢
          omega
        · intro hWF
          exact hwf1 hWF
        · intro k _
          have hshape : genToksE (Expr.ordered e1 (some true)) ++ k
              = genToksE e1 ++ (Tok.desc :: k) := by
            simp [genToksE]
          rw [hshape]
          simp only [parseOrdered,
            hrep1 (Tok.desc :: k) (by simp [headNotIn]),
            matchTok_cons_ne Tok.asc Tok.desc k (by simp), matchTok_cons_self]
      case _ hm2 =>
        simp only [Except.ok.injEq, Prod.mk.injEq] at h
        obtain ⟨he, hr, hs⟩ := h
        subst he hr hs
        refine ⟨hsuf1, ?_, fun hWF => hwf1 hWF, ?_⟩
        · simp only [genToksE, List.append_nil]
          exact hcnt1
        · intro k hk
          have hshape : genToksE (Expr.ordered e1 none) ++ k = genToksE e1 ++ k := by
            simp [genToksE]
          rw [hshape]
          simp only [parseOrdered,
            hrep1 k (headNotIn_mono _ [Tok.eqT] k (by simp) hk),
            matchTok_none_of_headNotIn Tok.asc [Tok.eqT, Tok.asc, Tok.desc] k (by simp) hk,
            matchTok_none_of_headNotIn Tok.desc [Tok.eqT, Tok.asc, Tok.desc] k (by simp) hk]

theorem rtCsvE_succ (f : Nat) (ihE : RTexprP f) (ihS : RTcsvEP f) : RTcsvEP (f + 1) := by
  intro toks st enc es rest st2 h
  simp only [parseCsvExpr] at h
  split at h
  · exact absurd h (by simp)
  case _ e rest1 st1 heq =>
    obtain ⟨hsuf1, hcnt1, hwf1, hrep1⟩ := ihE toks st enc e rest1 st1 heq
    split at h
    case _ rest2 hm =>
      split at h
      · exact absurd h (by simp)
      case _ es2 rest3 st3 heq2 =>
        simp only [Except.ok.injEq, Prod.mk.injEq] at h
        obtain ⟨he, hr, hs⟩ := h
        subst he hr hs
        obtain ⟨hsuf2, hcnt2, hwf2, hrep2⟩ := ihS rest2 st1 enc es2 rest3 st3 heq2
        obtain ⟨e2, tl2, hshape2⟩ := parseCsvExpr_shape f rest2 st1 enc es2 rest3 st3 heq2
        have hr1 : rest1 = Tok.comma :: rest2 := matchTok_some_inv _ _ _ hm
        subst hr1
        have hglshape : genToksList (.cons e es2)
            = genToksE e ++ Tok.comma :: genToksList es2 := by
          subst hshape2
          rfl
        refine ⟨?_, ?_, ?_, ?_⟩
        · exact hsuf2.trans ((List.suffix_cons Tok.comma rest2).trans hsuf1)
        · rw [hglshape]
          simp only [List.length_append, List.length_cons] at hcnt1 ⊢
          omega
        · intro hWF
          have hWF2 : ∀ t ∈ rest2, TokWF t := fun t ht =>
            hWF t (hsuf1.subset (List.mem_cons_of_mem _ ht))
          simp only [namesOKList, Bool.and_eq_true]
          exact ⟨hwf1 hWF, hwf2 hWF2⟩
        · intro k hk
          have hshape : genToksList (.cons e es2) ++ k
              = genToksE e ++ (Tok.comma :: (genToksList es2 ++ k)) := by
            rw [hglshape]
            simp [List.append_assoc]
          rw [hshape]
          simp only [parseCsvExpr,
            hrep1 (Tok.comma :: (genToksList es2 ++ k)) (by simp [headNotIn]),
            matchTok_cons_self, hrep2 k hk]
    case _ hm =>
      simp only [Except.ok.injEq, Prod.mk.injEq] at h
      obtain ⟨he, hr, hs⟩ := h
      subst he hr hs
      refine ⟨hsuf1, ?_, ?_, ?_⟩
      · show (genToksE e).length + rest1.length = toks.length
        exact hcnt1
      · intro hWF
        simp only [namesOKList, Bool.and_eq_true]
        exact ⟨hwf1 hWF, trivial⟩
      · intro k hk
        show parseCsvExpr (f + 1) (genToksE e ++ k) st enc = _
        simp only [parseCsvExpr,
          hrep1 k (headNotIn_mono _ [Tok.eqT] k (by simp) hk),
          matchTok_none_of_headNotIn Tok.comma [Tok.eqT, Tok.comma] k (by simp) hk]

theorem rtCsvO_succ (f : Nat) (ihO : RTordP f) (ihS : RTcsvOP f) : RTcsvOP (f + 1) := by
  intro toks st enc es rest st2 h
  simp only [parseCsvOrdered] at h
  split at h
  · exact absurd h (by simp)
  case _ e rest1 st1 heq =>
    obtain ⟨hsuf1, hcnt1, hwf1, hrep1⟩ := ihO toks st enc e rest1 st1 heq
    split at h
    case _ rest2 hm =>
      split at h
      · exact absurd h (by simp)
      case _ es2 rest3 st3 heq2 =>
        simp only [Except.ok.injEq, Prod.mk.injEq] at h
        obtain ⟨he, hr, hs⟩ := h
        subst he hr hs
        obtain ⟨hsuf2, hcnt2, hwf2, hrep2⟩ := ihS rest2 st1 enc es2 rest3 st3 heq2
        obtain ⟨e2, tl2, hshape2⟩ := parseCsvOrdered_shape f rest2 st1 enc es2 rest3 st3 heq2
        have hr1 : rest1 = Tok.comma :: rest2 := matchTok_some_inv _ _ _ hm
        subst hr1
        have hglshape : genToksList (.cons e es2)
            = genToksE e ++ Tok.comma :: genToksList es2 := by
          subst hshape2
          rfl
        refine ⟨?_, ?_, ?_, ?_⟩
        · exact hsuf2.trans ((List.suffix_cons Tok.comma rest2).trans hsuf1)
        · rw [hglshape]
          simp only [List.length_append, List.length_cons] at hcnt1 ⊢
          omega
        · intro hWF
          have hWF2 : ∀ t ∈ rest2, TokWF t := fun t ht =>
            hWF t (hsuf1.subset (List.mem_cons_of_mem _ ht))
          simp only [namesOKList, Bool.and_eq_true]
          exact ⟨hwf1 hWF, hwf2 hWF2⟩
        · intro k hk
          have hshape : genToksList (.cons e es2) ++ k
              = genToksE e ++ (Tok.comma :: (genToksList es2 ++ k)) := by
            rw [hglshape]
            simp [List.append_assoc]
          rw [hshape]
          simp only [parseCsvOrdered,
            hrep1 (Tok.comma :: (genToksList es2 ++ k)) (by simp [headNotIn]),
            matchTok_cons_self, hrep2 k hk]
    case _ hm =>
      simp only [Except.ok.injEq, Prod.mk.injEq] at h
      obtain ⟨he, hr, hs⟩ := h
      subst he hr hs
      refine ⟨hsuf1, ?_, ?_, ?_⟩
      · show (genToksE e).length + rest1.length = toks.length
        exact hcnt1
      · intro hWF
        simp only [namesOKList, Bool.and_eq_true]
        exact ⟨hwf1 hWF, trivial⟩
      · intro k hk
        show parseCsvOrdered (f + 1) (genToksE e ++ k) st enc = _
        simp only [parseCsvOrdered,
          hrep1 k (headNotIn_mono _ [Tok.eqT, Tok.asc, Tok.desc] k (by simp) hk),
          matchTok_none_of_headNotIn Tok.comma
            [Tok.eqT, Tok.asc, Tok.desc, Tok.comma] k (by simp) hk]

theorem rtFunc_succ (f : Nat) (ihCE : RTcsvEP f) (ihCO : RTcsvOP f) : RTfuncP (f + 1) := by
  intro kind toks st enc e rest st2 h
  simp only [parseOptFunc] at h
  split at h
  case _ rest0 hl =>
    have htoks : toks = Tok.lparen :: rest0 := matchTok_some_inv _ _ _ hl
    subst htoks
    split at h
    · -- argsRes produced an error
      exact absurd h (by simp)
    case _ args rest2 st1 hre =>
      -- argsRes = .ok (args, rest2, st1); h is the required-argument check.
      split at hre
      case _ rest2e hre0 =>
        -- immediate rparen: args = nil, so the required-argument check fails
        simp only [Except.ok.injEq, Prod.mk.injEq] at hre
        obtain ⟨ha, -, -⟩ := hre
        rw [← ha] at h
        exact absurd h (by simp)
      case _ hre0 =>
        by_cases hst : st = OptBlockInClause.orderBy
        · subst hst
          rw [if_pos rfl] at hre
          split at hre
          · exact absurd hre (by simp)
          case _ args2 r2 s2 heq =>
            split at hre
            case _ r3 hr2 =>
              simp only [Except.ok.injEq, Prod.mk.injEq] at hre
              obtain ⟨ha2, hr3, hs2⟩ := hre
              rw [← ha2, ← hr3, ← hs2] at h
              obtain ⟨a0, tl0, hargs⟩ :=
                parseCsvOrdered_shape f rest0 _ _ args2 r2 s2 heq
              subst hargs
              simp only [Except.ok.injEq, Prod.mk.injEq] at h
              obtain ⟨he, hr, hs⟩ := h
              subst he
              subst hr
              subst hs
              obtain ⟨hsuf1, hcnt1, hwf1, hrep1⟩ :=
                ihCO rest0 _ _ (.cons a0 tl0) r2 s2 heq
              have hr2i : r2 = Tok.rparen :: r3 := matchTok_some_inv _ _ _ hr2
              subst hr2i
              refine ⟨.cons a0 tl0, rfl, ?_, ?_, ?_, ?_⟩
              · exact ((List.suffix_cons Tok.rparen r3).trans hsuf1).trans
                  (List.suffix_cons Tok.lparen rest0)
              · simp only [List.length_cons] at hcnt1 ⊢
                omega
              · intro hWF
                exact hwf1 (fun t ht => hWF t (List.mem_cons_of_mem _ ht))
              · intro k
                have hmt : matchTok Tok.rparen
                    (genToksList (.cons a0 tl0) ++ Tok.rparen :: k) = none := by
                  obtain ⟨t0, l0, hgl, hstart⟩ := genToksList_start a0 tl0
                  rw [hgl, List.cons_append]
                  exact matchTok_cons_ne _ _ _ (isStartTok_props t0 hstart).1
                simp only [parseOptFunc, matchTok_cons_self, hmt, eq_self_iff_true, if_true,
                  hrep1 (Tok.rparen :: k) (by simp [headNotIn]), matchTok_cons_self]
            · exact absurd hre (by simp)
        · rw [if_neg hst] at hre
          split at hre
          · exact absurd hre (by simp)
          case _ args2 r2 s2 heq =>
            split at hre
            case _ r3 hr2 =>
              simp only [Except.ok.injEq, Prod.mk.injEq] at hre
              obtain ⟨ha2, hr3, hs2⟩ := hre
              rw [← ha2, ← hr3, ← hs2] at h
              obtain ⟨a0, tl0, hargs⟩ :=
                parseCsvExpr_shape f rest0 _ _ args2 r2 s2 heq
              subst hargs
              simp only [Except.ok.injEq, Prod.mk.injEq] at h
              obtain ⟨he, hr, hs⟩ := h
              subst he
              subst hr
              subst hs
              obtain ⟨hsuf1, hcnt1, hwf1, hrep1⟩ :=
                ihCE rest0 _ _ (.cons a0 tl0) r2 s2 heq
              have hr2i : r2 = Tok.rparen :: r3 := matchTok_some_inv _ _ _ hr2
              subst hr2i
              refine ⟨.cons a0 tl0, rfl, ?_, ?_, ?_, ?_⟩
              · exact ((List.suffix_cons Tok.rparen r3).trans hsuf1).trans
                  (List.suffix_cons Tok.lparen rest0)
              · simp only [List.length_cons] at hcnt1 ⊢
                omega
              · intro hWF
                exact hwf1 (fun t ht => hWF t (List.mem_cons_of_mem _ ht))
              · intro k
                have hmt : matchTok Tok.rparen
                    (genToksList (.cons a0 tl0) ++ Tok.rparen :: k) = none := by
                  obtain ⟨t0, l0, hgl, hstart⟩ := genToksList_start a0 tl0
                  rw [hgl, List.cons_append]
                  exact matchTok_cons_ne _ _ _ (isStartTok_props t0 hstart).1
                simp only [parseOptFunc, matchTok_cons_self, hmt, hst, Bool.false_eq_true,
                  if_false, hrep1 (Tok.rparen :: k) (by simp [headNotIn]), matchTok_cons_self]
            · exact absurd hre (by simp)
  · exact absurd h (by simp)

theorem rtBlock_succ (f : Nat) (ihCE : RTcsvEP f) : RTblockP (f + 1) := by
  intro toks st enc e rest st2 h
  simp only [parseOptBlock] at h
  split at h
  case _ n rest0 =>
    split at h
    case _ rest1 hlb =>
      have hr0 : rest0 = Tok.lbracket :: rest1 := matchTok_some_inv _ _ _ hlb
      subst hr0
      split at h
      case _ rest2 hrb =>
        -- empty block body
        have hr1 : rest1 = Tok.rbracket :: rest2 := matchTok_some_inv _ _ _ hrb
        subst hr1
        simp only [Except.ok.injEq, Prod.mk.injEq] at h
        obtain ⟨he, hr, hs⟩ := h
        subst he
        subst hr
        subst hs
        refine ⟨n, .nil, rfl, ?_, ?_, ?_, ?_⟩
        · exact ((List.suffix_cons Tok.rbracket rest2).trans
            (List.suffix_cons Tok.lbracket _)).trans (List.suffix_cons (Tok.ident n) _)
        · simp only [genToksList, List.length_nil, List.length_cons]
          omega
        · intro hWF
          have h1 := hWF (Tok.ident n) (by simp)
          simp only [Bool.and_eq_true]
          exact ⟨h1, rfl⟩
        · intro k
          simp [parseOptBlock, matchTok_cons_self, genToksList]
      case _ hrb =>
        split at h
        · exact absurd h (by simp)
        case _ bs rest3 st1 heq =>
          split at h
          case _ rest4 hrb2 =>
            have hr3 : rest3 = Tok.rbracket :: rest4 := matchTok_some_inv _ _ _ hrb2
            subst hr3
            simp only [Except.ok.injEq, Prod.mk.injEq] at h
            obtain ⟨he, hr, hs⟩ := h
            subst he
            subst hr
            subst hs
            obtain ⟨hsuf1, hcnt1, hwf1, hrep1⟩ :=
              ihCE rest1 enc enc bs (Tok.rbracket :: rest4) st1 heq
            obtain ⟨b0, tlb, hbs⟩ :=
              parseCsvExpr_shape f rest1 enc enc bs (Tok.rbracket :: rest4) st1 heq
            refine ⟨n, bs, rfl, ?_, ?_, ?_, ?_⟩
            · exact (((List.suffix_cons Tok.rbracket rest4).trans hsuf1).trans
                (List.suffix_cons Tok.lbracket _)).trans (List.suffix_cons (Tok.ident n) _)
            · simp only [List.length_cons] at hcnt1 ⊢
              omega
            · intro hWF
              have h1 := hWF (Tok.ident n) (by simp)
              simp only [Bool.and_eq_true]
              refine ⟨h1, hwf1 ?_⟩
              intro t ht
              exact hWF t (List.mem_cons_of_mem _ (List.mem_cons_of_mem _ ht))
            · intro k
              have hmt : matchTok Tok.rbracket
                  (genToksList bs ++ Tok.rbracket :: k) = none := by
                subst hbs
                obtain ⟨t0, l0, hgl, hstart⟩ := genToksList_start b0 tlb
                rw [hgl, List.cons_append]
                exact matchTok_cons_ne _ _ _ (isStartTok_props t0 hstart).2.1
              simp only [parseOptBlock, matchTok_cons_self, hmt,
                hrep1 (Tok.rbracket :: k) (by simp [headNotIn]), matchTok_cons_self]
          · exact absurd h (by simp)
    · exact absurd h (by simp)
  · exact absurd h (by simp)

theorem rtAtom_kw_case (f : Nat) (ihF : RTfuncP f) (kind : GroupKind) (tl : List Tok)
    (st enc : OptBlockInClause) (e : Expr) (rest : List Tok) (st2 : OptBlockInClause)
    (h : parseOptFunc f kind tl st enc = .ok (e, rest, st2)) :
    (rest <:+ kindTok kind :: tl)
    ∧ ((genToksE e).length + rest.length = (kindTok kind :: tl).length)
    ∧ ((∀ t ∈ kindTok kind :: tl, TokWF t) → namesOK e = true)
    ∧ (∀ k, parseAtom (f + 1) (genToksE e ++ k) st enc = .ok (e, k, st2)) := by
  obtain ⟨args, he, hsuf, hcnt, hwf, hrep⟩ := ihF kind tl st enc e rest st2 h
  subst he
  refine ⟨hsuf.trans (List.suffix_cons _ _), ?_, ?_, ?_⟩
  · rw [genToksE_build]
    simp only [List.length_cons, List.length_append, List.length_nil]
    omega
  · intro hWF
    rw [namesOK_build]
    exact hwf (fun t ht => hWF t (List.mem_cons_of_mem _ ht))
  · intro k
    rw [genToksE_build]
    have hshape : (kindTok kind :: Tok.lparen :: (genToksList args ++ [Tok.rparen])) ++ k
        = kindTok kind :: (Tok.lparen :: (genToksList args ++ Tok.rparen :: k)) := by
      simp [List.append_assoc]
    rw [hshape, parseAtom_kw]
    exact hrep k

theorem rtAtom_succ (f : Nat) (ihF : RTfuncP f) (ihB : RTblockP f) : RTatomP (f + 1) := by
  intro toks st enc e rest st2 h
  cases toks with
  | nil => simp [parseAtom] at h
  | cons t0 tl =>
    cases t0 with
    | ident s =>
      simp only [parseAtom, Except.ok.injEq, Prod.mk.injEq] at h
      obtain ⟨he, hr, hs⟩ := h
      subst he
      subst hr
      subst hs
      refine ⟨List.suffix_cons _ _, by simp [genToksE]; omega, ?_, ?_⟩
      · intro hWF
        exact hWF (Tok.ident s) (by simp)
      · intro k
        show parseAtom (f + 1) (Tok.ident s :: k) st enc = _
        simp [parseAtom]
    | optionalK => exact rtAtom_kw_case f ihF .optionalG tl st enc e rest st2 h
    | requiredK => exact rtAtom_kw_case f ihF .requiredG tl st enc e rest st2 h
    | loopK => exact rtAtom_kw_case f ihF .loopG tl st enc e rest st2 h
    | optBlockK =>
      obtain ⟨n, bs, he, hsuf, hcnt, hwf, hrep⟩ := ihB tl st enc e rest st2 h
      subst he
      refine ⟨hsuf.trans (List.suffix_cons _ _), ?_, ?_, ?_⟩
      · show (genToksE (Expr.optBlock n bs)).length + rest.length = tl.length + 1
        simp only [genToksE, List.length_cons, List.length_append, List.length_nil]
        omega
      · intro hWF
        show namesOK (Expr.optBlock n bs) = true
        simp only [namesOK]
        exact hwf (fun t ht => hWF t (List.mem_cons_of_mem _ ht))
      · intro k
        have hshape : genToksE (Expr.optBlock n bs) ++ k
            = Tok.optBlockK :: (Tok.ident n :: Tok.lbracket :: (genToksList bs ++ Tok.rbracket :: k)) := by
          simp [genToksE, List.append_assoc]
        rw [hshape]
        show parseOptBlock f (Tok.ident n :: Tok.lbracket :: (genToksList bs ++ Tok.rbracket :: k)) st enc = _
        exact hrep k
    | select => simp [parseAtom] at h
    | fromKw => simp [parseAtom] at h
    | whereKw => simp [parseAtom] at h
    | groupKw => simp [parseAtom] at h
    | byKw => simp [parseAtom] at h
    | orderKw => simp [parseAtom] at h
    | asc => simp [parseAtom] at h
    | desc => simp [parseAtom] at h
    | lparen => simp [parseAtom] at h
    | rparen => simp [parseAtom] at h
    | lbracket => simp [parseAtom] at h
    | rbracket => simp [parseAtom] at h
    | comma => simp [parseAtom] at h
    | eqT => simp [parseAtom] at h

theorem parserRT (f : Nat) :
    RTatomP f ∧ RTexprP f ∧ RTordP f ∧ RTcsvEP f ∧ RTcsvOP f ∧ RTfuncP f ∧ RTblockP f := by
  induction f with
  | zero =>
    exact ⟨rtAtom_zero, rtExpr_zero, rtOrd_zero, rtCsvE_zero, rtCsvO_zero,
      rtFunc_zero, rtBlock_zero⟩
  | succ f ih =>
    obtain ⟨hA, hE, hO, hCE, hCO, hF, hB⟩ := ih
    exact ⟨rtAtom_succ f hF hB, rtExpr_succ f hA, rtOrd_succ f hE,
      rtCsvE_succ f hE hCE, rtCsvO_succ f hO hCO, rtFunc_succ f hCE hCO,
      rtBlock_succ f hCE⟩

/-! ### Statement-level round trip -/

theorem headNotIn_orderChunk (bad : List Tok) (h4 : Tok.orderKw ∉ bad)
    (o : Option ExprList) : headNotIn bad (orderChunkToks o) := by
  cases o with
  | none => trivial
  | some es => exact h4

theorem headNotIn_groupOrder (bad : List Tok) (h3 : Tok.groupKw ∉ bad)
    (h4 : Tok.orderKw ∉ bad) (g o : Option ExprList) :
    headNotIn bad (groupChunkToks g ++ orderChunkToks o) := by
  cases g with
  | none =>
    rw [show groupChunkToks none = [] from rfl, List.nil_append]
    exact headNotIn_orderChunk bad h4 o
  | some es => exact h3

theorem headNotIn_whereGroupOrder (bad : List Tok) (h2 : Tok.whereKw ∉ bad)
    (h3 : Tok.groupKw ∉ bad) (h4 : Tok.orderKw ∉ bad)
    (w : Option Expr) (g o : Option ExprList) :
    headNotIn bad (whereChunkToks w ++ (groupChunkToks g ++ orderChunkToks o)) := by
  cases w with
  | none =>
    rw [show whereChunkToks none = [] from rfl, List.nil_append]
    exact headNotIn_groupOrder bad h3 h4 g o
  | some e => exact h2

theorem headNotIn_chunkTail (bad : List Tok) (h1 : Tok.fromKw ∉ bad)
    (h2 : Tok.whereKw ∉ bad) (h3 : Tok.groupKw ∉ bad) (h4 : Tok.orderKw ∉ bad)
    (tbl : Option String) (w : Option Expr) (g o : Option ExprList) :
    headNotIn bad (fromChunkToks tbl
      ++ (whereChunkToks w ++ (groupChunkToks g ++ orderChunkToks o))) := by
  cases tbl with
  | none =>
    rw [show fromChunkToks none = [] from rfl, List.nil_append]
    exact headNotIn_whereGroupOrder bad h2 h3 h4 w g o
  | some n => exact h1

theorem parseFromOpt_rt (toks : List Tok) (tbl : Option String) (rest : List Tok)
    (h : parseFromOpt toks = .ok (tbl, rest)) :
    (rest <:+ toks)
    ∧ ((fromChunkToks tbl).length + rest.length = toks.length)
    ∧ ((∀ t ∈ toks, TokWF t) → tblNamesOK tbl = true)
    ∧ (∀ k, headNotIn [Tok.fromKw] k
        → parseFromOpt (fromChunkToks tbl ++ k) = .ok (tbl, k)) := by
  simp only [parseFromOpt] at h
  split at h
  · next rest1 heq =>
    split at h
    · next n rest2 =>
      simp only [Except.ok.injEq, Prod.mk.injEq] at h
      obtain ⟨h1, h2⟩ := h
      subst h1
      subst h2
      have htoks := matchTok_some_inv _ _ _ heq
      subst htoks
      refine ⟨(List.suffix_cons _ _).trans (List.suffix_cons _ _), ?_, ?_, ?_⟩
      · simp only [fromChunkToks, List.length_cons, List.length_nil]
        omega
      · intro hWF
        exact hWF (Tok.ident n) (by simp)
      · intro k _
        show parseFromOpt (Tok.fromKw :: Tok.ident n :: k) = _
        simp [parseFromOpt, matchTok]
    · exact absurd h (by simp)
  · next heq =>
    simp only [Except.ok.injEq, Prod.mk.injEq] at h
    obtain ⟨h1, h2⟩ := h
    subst h1
    subst h2
    refine ⟨List.suffix_refl _, by simp [fromChunkToks], fun _ => rfl, ?_⟩
    intro k hk
    show parseFromOpt ([] ++ k) = _
    rw [List.nil_append]
    simp only [parseFromOpt, matchTok_none_of_headNotIn Tok.fromKw [Tok.fromKw] k (by simp) hk]

theorem parseWhereOpt_rt (f : Nat) (hE : RTexprP f) (toks : List Tok)
    (st : OptBlockInClause) (w : Option Expr) (rest : List Tok) (st2 : OptBlockInClause)
    (h : parseWhereOpt f toks st = .ok (w, rest, st2)) :
    (rest <:+ toks)
    ∧ ((whereChunkToks w).length + rest.length = toks.length)
    ∧ ((∀ t ∈ toks, TokWF t) → optExprNamesOK w = true)
    ∧ (∀ k, headNotIn [Tok.whereKw, Tok.eqT] k
        → parseWhereOpt f (whereChunkToks w ++ k) st = .ok (w, k, st2)) := by
  simp only [parseWhereOpt] at h
  split at h
  · next rest1 heq =>
    split at h
    · exact absurd h (by simp)
    · next e rest2 st1 hpe =>
      simp only [Except.ok.injEq, Prod.mk.injEq] at h
      obtain ⟨h1, h2, h3⟩ := h
      subst h1
      subst h2
      subst h3
      have htoks := matchTok_some_inv _ _ _ heq
      subst htoks
      obtain ⟨hsuf, hcnt, hwf, hrep⟩ := hE _ _ _ _ _ _ hpe
      refine ⟨hsuf.trans (List.suffix_cons _ _), ?_, ?_, ?_⟩
      · simp only [whereChunkToks, List.length_cons]
        omega
      · intro hWF
        exact hwf (fun t ht => hWF t (List.mem_cons_of_mem _ ht))
      · intro k hk
        have hk2 : headNotIn [Tok.eqT] k :=
          headNotIn_mono [Tok.whereKw, Tok.eqT] [Tok.eqT] k (by simp) hk
        show parseWhereOpt f (Tok.whereKw :: (genToksE e ++ k)) st = _
        simp only [parseWhereOpt, matchTok_cons_self, hrep k hk2]
  · next heq =>
    simp only [Except.ok.injEq, Prod.mk.injEq] at h
    obtain ⟨h1, h2, h3⟩ := h
    subst h1
    subst h2
    subst h3
    refine ⟨List.suffix_refl _, by simp [whereChunkToks], fun _ => rfl, ?_⟩
    intro k hk
    show parseWhereOpt f ([] ++ k) st = _
    rw [List.nil_append]
    simp only [parseWhereOpt,
      matchTok_none_of_headNotIn Tok.whereKw [Tok.whereKw, Tok.eqT] k (by simp) hk]

theorem parseGroupOpt_rt (f : Nat) (hCE : RTcsvEP f) (toks : List Tok)
    (st : OptBlockInClause) (g : Option ExprList) (rest : List Tok) (st2 : OptBlockInClause)
    (h : parseGroupOpt f toks st = .ok (g, rest, st2)) :
    (rest <:+ toks)
    ∧ ((groupChunkToks g).length + rest.length = toks.length)
    ∧ ((∀ t ∈ toks, TokWF t) → optListNamesOK g = true)
    ∧ (∀ k, headNotIn [Tok.groupKw, Tok.eqT, Tok.comma] k
        → parseGroupOpt f (groupChunkToks g ++ k) st = .ok (g, k, st2)) := by
  simp only [parseGroupOpt] at h
  split at h
  · next rest1 heq =>
    split at h
    · next rest2 heq2 =>
      split at h
      · exact absurd h (by simp)
      · next es rest3 st1 hpe =>
        simp only [Except.ok.injEq, Prod.mk.injEq] at h
        obtain ⟨h1, h2, h3⟩ := h
        subst h1
        subst h2
        subst h3
        have htoks := matchTok_some_inv _ _ _ heq
        subst htoks
        have hrest1 := matchTok_some_inv _ _ _ heq2
        subst hrest1
        obtain ⟨hsuf, hcnt, hwf, hrep⟩ := hCE _ _ _ _ _ _ hpe
        refine ⟨(hsuf.trans (List.suffix_cons _ _)).trans (List.suffix_cons _ _), ?_, ?_, ?_⟩
        · simp only [groupChunkToks, List.length_cons]
          omega
        · intro hWF
          exact hwf (fun t ht =>
            hWF t (List.mem_cons_of_mem _ (List.mem_cons_of_mem _ ht)))
        · intro k hk
          have hk2 : headNotIn [Tok.eqT, Tok.comma] k :=
            headNotIn_mono [Tok.groupKw, Tok.eqT, Tok.comma] [Tok.eqT, Tok.comma] k
              (by simp) hk
          show parseGroupOpt f (Tok.groupKw :: Tok.byKw :: (genToksList es ++ k)) st = _
          simp only [parseGroupOpt, matchTok_cons_self, hrep k hk2]
    · exact absurd h (by simp)
  · next heq =>
    simp only [Except.ok.injEq, Prod.mk.injEq] at h
    obtain ⟨h1, h2, h3⟩ := h
    subst h1
    subst h2
    subst h3
    refine ⟨List.suffix_refl _, by simp [groupChunkToks], fun _ => rfl, ?_⟩
    intro k hk
    show parseGroupOpt f ([] ++ k) st = _
    rw [List.nil_append]
    simp only [parseGroupOpt,
      matchTok_none_of_headNotIn Tok.groupKw [Tok.groupKw, Tok.eqT, Tok.comma] k (by simp) hk]

theorem parseOrderOpt_rt (f : Nat) (hCO : RTcsvOP f) (toks : List Tok)
    (st : OptBlockInClause) (o : Option ExprList) (rest : List Tok) (st2 : OptBlockInClause)
    (h : parseOrderOpt f toks st = .ok (o, rest, st2)) :
    (rest <:+ toks)
    ∧ ((orderChunkToks o).length + rest.length = toks.length)
    ∧ ((∀ t ∈ toks, TokWF t) → optListNamesOK o = true)
    ∧ (∀ k, headNotIn [Tok.orderKw, Tok.eqT, Tok.asc, Tok.desc, Tok.comma] k
        → parseOrderOpt f (orderChunkToks o ++ k) st = .ok (o, k, st2)) := by
  simp only [parseOrderOpt] at h
  split at h
  · next rest1 heq =>
    split at h
    · next rest2 heq2 =>
      split at h
      · exact absurd h (by simp)
      · next es rest3 st1 hpe =>
        simp only [Except.ok.injEq, Prod.mk.injEq] at h
        obtain ⟨h1, h2, h3⟩ := h
        subst h1
        subst h2
        subst h3
        have htoks := matchTok_some_inv _ _ _ heq
        subst htoks
        have hrest1 := matchTok_some_inv _ _ _ heq2
        subst hrest1
        obtain ⟨hsuf, hcnt, hwf, hrep⟩ := hCO _ _ _ _ _ _ hpe
        refine ⟨(hsuf.trans (List.suffix_cons _ _)).trans (List.suffix_cons _ _), ?_, ?_, ?_⟩
        · simp only [orderChunkToks, List.length_cons]
          omega
        · intro hWF
          exact hwf (fun t ht =>
            hWF t (List.mem_cons_of_mem _ (List.mem_cons_of_mem _ ht)))
        · intro k hk
          have hk2 : headNotIn [Tok.eqT, Tok.asc, Tok.desc, Tok.comma] k :=
            headNotIn_mono [Tok.orderKw, Tok.eqT, Tok.asc, Tok.desc, Tok.comma]
              [Tok.eqT, Tok.asc, Tok.desc, Tok.comma] k (by simp) hk
          show parseOrderOpt f (Tok.orderKw :: Tok.byKw :: (genToksList es ++ k)) st = _
          simp only [parseOrderOpt, matchTok_cons_self, hrep k hk2]
    · exact absurd h (by simp)
  · next heq =>
    simp only [Except.ok.injEq, Prod.mk.injEq] at h
    obtain ⟨h1, h2, h3⟩ := h
    subst h1
    subst h2
    subst h3
    refine ⟨List.suffix_refl _, by simp [orderChunkToks], fun _ => rfl, ?_⟩
    intro k hk
    show parseOrderOpt f ([] ++ k) st = _
    rw [List.nil_append]
    simp only [parseOrderOpt, matchTok_none_of_headNotIn Tok.orderKw
      [Tok.orderKw, Tok.eqT, Tok.asc, Tok.desc, Tok.comma] k (by simp) hk]

theorem parseStatement_rt (f : Nat) (toks : List Tok) (stmt : Stmt)
    (st2 : OptBlockInClause)
    (h : parseStatement f toks = .ok (stmt, [], st2)) :
    ((genToksStmt stmt).length = toks.length)
    ∧ ((∀ t ∈ toks, TokWF t) → namesOKStmt stmt = true)
    ∧ parseStatement f (genToksStmt stmt) = .ok (stmt, [], st2) := by
  simp only [parseStatement] at h
  split at h
  · next rest hsel =>
    split at h
    · exact absurd h (by simp)
    · next projs r1 st1 hp =>
      split at h
      · exact absurd h (by simp)
      · next tbl r2 hf =>
        split at h
        · exact absurd h (by simp)
        · next w r3 stw hw =>
          split at h
          · exact absurd h (by simp)
          · next g r4 stg hg =>
            split at h
            · exact absurd h (by simp)
            · next o r5 sto ho =>
              simp only [Except.ok.injEq, Prod.mk.injEq] at h
              obtain ⟨h1, h2, h3⟩ := h
              subst h1
              subst h3
              have hr5 : r5 = [] := h2
              subst hr5
              have htoks := matchTok_some_inv _ _ _ hsel
              subst htoks
              obtain ⟨hsufP, hcntP, hwfP, hrepP⟩ :=
                (parserRT f).2.2.2.1 _ _ _ _ _ _ hp
              obtain ⟨hsufF, hcntF, hwfF, hrepF⟩ := parseFromOpt_rt _ _ _ hf
              obtain ⟨hsufW, hcntW, hwfW, hrepW⟩ :=
                parseWhereOpt_rt f (parserRT f).2.1 _ _ _ _ _ hw
              obtain ⟨hsufG, hcntG, hwfG, hrepG⟩ :=
                parseGroupOpt_rt f (parserRT f).2.2.2.1 _ _ _ _ _ hg
              obtain ⟨hsufO, hcntO, hwfO, hrepO⟩ :=
                parseOrderOpt_rt f (parserRT f).2.2.2.2.1 _ _ _ _ _ ho
              refine ⟨?_, ?_, ?_⟩
              · simp only [genToksStmt, List.length_append, List.length_cons,
                  List.length_nil] at hcntO ⊢
                omega
              · intro hWF
                have hWFr : ∀ t ∈ rest, TokWF t :=
                  fun t ht => hWF t (List.mem_cons_of_mem _ ht)
                have hWF1 : ∀ t ∈ r1, TokWF t := fun t ht => hWFr t (hsufP.subset ht)
                have hWF2 : ∀ t ∈ r2, TokWF t := fun t ht => hWF1 t (hsufF.subset ht)
                have hWF3 : ∀ t ∈ r3, TokWF t := fun t ht => hWF2 t (hsufW.subset ht)
                have hWF4 : ∀ t ∈ r4, TokWF t := fun t ht => hWF3 t (hsufG.subset ht)
                simp only [namesOKStmt, Bool.and_eq_true]
                exact ⟨⟨⟨⟨hwfP hWFr, hwfF hWF1⟩, hwfW hWF2⟩, hwfG hWF3⟩, hwfO hWF4⟩
              · have hkP : headNotIn [Tok.eqT, Tok.comma]
                    (fromChunkToks tbl ++ (whereChunkToks w
                      ++ (groupChunkToks g ++ orderChunkToks o))) :=
                  headNotIn_chunkTail _ (by simp) (by simp) (by simp) (by simp) tbl w g o
                have hkF : headNotIn [Tok.fromKw]
                    (whereChunkToks w ++ (groupChunkToks g ++ orderChunkToks o)) :=
                  headNotIn_whereGroupOrder _ (by simp) (by simp) (by simp) w g o
                have hkW : headNotIn [Tok.whereKw, Tok.eqT]
                    (groupChunkToks g ++ orderChunkToks o) :=
                  headNotIn_groupOrder _ (by simp) (by simp) g o
                have hkG : headNotIn [Tok.groupKw, Tok.eqT, Tok.comma]
                    (orderChunkToks o) :=
                  headNotIn_orderChunk _ (by simp) o
                have e5 := hrepO [] trivial
                rw [List.append_nil] at e5
                have e1 := hrepP (fromChunkToks tbl ++ (whereChunkToks w
                  ++ (groupChunkToks g ++ orderChunkToks o))) hkP
                have e2 := hrepF (whereChunkToks w
                  ++ (groupChunkToks g ++ orderChunkToks o)) hkF
                have e3 := hrepW (groupChunkToks g ++ orderChunkToks o) hkW
                have e4 := hrepG (orderChunkToks o) hkG
                show parseStatement f (Tok.select :: genToksList projs
                  ++ (fromChunkToks tbl ++ (whereChunkToks w
                    ++ (groupChunkToks g ++ orderChunkToks o)))) = _
                simp only [List.cons_append, parseStatement, matchTok_cons_self,
                  e1, e2, e3, e4, e5]
  · next hsel =>
    split at h
    · exact absurd h (by simp)
    · next e rest1 st1 hpe =>
      simp only [Except.ok.injEq, Prod.mk.injEq] at h
      obtain ⟨h1, h2, h3⟩ := h
      subst h1
      subst h3
      have hr : rest1 = [] := h2
      subst hr
      obtain ⟨hsuf, hcnt, hwf, hrep⟩ :=
        (parserRT f).2.1 _ _ _ _ _ _ hpe
      refine ⟨?_, ?_, ?_⟩
      · show (genToksE e).length = toks.length
        simp only [List.length_nil] at hcnt
        omega
      · intro hWF
        exact hwf hWF
      · have hre := hrep [] trivial
        rw [List.append_nil] at hre
        obtain ⟨t, l, hgl, hst⟩ := genToksE_start e
        show parseStatement f (genToksE e) = _
        simp only [parseStatement,
          hgl ▸ matchTok_cons_ne Tok.select t l (isStartTok_props t hst).2.2, hre]

/-- C1: round-trip — if `parse` accepts a template `T` and produces the
tree `ast`, then generating SQL text from `ast` with the dialect's
generator and parsing that text again yields exactly the same tree `ast`
(`parse (generate ast) = ok ast`); re-generation is therefore stable. -/
theorem parse_roundtrip (T : String) (ast : Stmt) (h : parse T = .ok ast) :
    parse (generate ast) = .ok ast := by
  simp only [parse] at h
  split at h
  · exact absurd h (by simp)
  · next toks heq =>
    split at h
    · exact absurd h (by simp)
    · next stmt st hps =>
      simp only [Except.ok.injEq] at h
      subst h
      obtain ⟨hcnt, hwf, hrep⟩ := parseStatement_rt _ _ _ _ hps
      have hnames : namesOKStmt stmt = true := hwf (tokenizeL_wf T.data toks heq)
      have htok : tokenizeL (genLStmt stmt) = .ok (genToksStmt stmt) :=
        tokenizeL_genLStmt stmt hnames
      show parse (generate stmt) = .ok stmt
      simp only [parse, show (generate stmt).data = genLStmt stmt from rfl, htok]
      rw [hcnt]
      simp only [hrep]
    · exact absurd h (by simp)

/-- Concrete instance of the round-trip theorem: the template
`SELECT a, OPTIONAL (b) FROM t` parses, and parsing its regenerated SQL
text returns the same tree. -/
theorem parse_roundtrip_witness :
    parse "SELECT a, OPTIONAL (b) FROM t"
      = .ok (Stmt.selectS
          (ExprList.cons (Expr.column "a")
            (ExprList.cons (Expr.optionalFunc (ExprList.cons (Expr.column "b") ExprList.nil))
              ExprList.nil))
          (some "t") none none none)
    ∧ parse (generate (Stmt.selectS
          (ExprList.cons (Expr.column "a")
            (ExprList.cons (Expr.optionalFunc (ExprList.cons (Expr.column "b") ExprList.nil))
              ExprList.nil))
          (some "t") none none none))
      = .ok (Stmt.selectS
          (ExprList.cons (Expr.column "a")
            (ExprList.cons (Expr.optionalFunc (ExprList.cons (Expr.column "b") ExprList.nil))
              ExprList.nil))
          (some "t") none none none) :=
  ⟨by decide, parse_roundtrip "SELECT a, OPTIONAL (b) FROM t" _ (by decide)⟩

end SqlPattern
